import Mathlib

/-!
Verification development for the Adobe-Express GUI-agent engine.

The definitions below are a shallow embedding of the element-resolution and
step-execution engine:
  * `Test_GUI_Agent/executor_playwright.py` (candidate ranking, target
    resolution, step-wise plan execution), identical to
    `GUI_Agent_10_20/executor_playwright.py`;
  * `Test_GUI_Agent/snapshot_runtime.py` (DOM/AX snapshot fusion into the
    canonical minimal element list);
  * `GUI_Agent_10_20/run_gui_agent_loop.py` (the snapshot/plan/execute
    recovery loop).

Python floats are embedded as exact rationals; the only irrational
quantity, the Euclidean distance `hypot` used by the proximity bonus, is
kept as a squared distance inside scores, with an exact boolean comparison
`scoreLe` that is proved to agree with the real-valued total score.
Strings are Python strings restricted to their list-of-char structure;
Python truthiness of an optional string (`None`/`""` falsy) is modelled by
`optTruthy`.
-/

namespace GuiAgent

/-! ## String utilities: the Python `_norm`, `strip`, `lower`, `in`, `startswith` -/

/-- Python whitespace characters matched by the regex class in
`_norm` (`re.sub(r"\s+", " ", ...)`) and stripped by `str.strip()`. -/
def isPyWs (c : Char) : Bool :=
  c = ' ' || c = '\t' || c = '\n' || c = '\r' || c = '\x0b' || c = '\x0c'

/-- Split a character list into maximal runs of non-whitespace characters. -/
def splitWsAux : List Char → List Char → List (List Char)
  | [], acc => if acc = [] then [] else [acc.reverse]
  | c :: cs, acc =>
    if isPyWs c then
      if acc = [] then splitWsAux cs [] else acc.reverse :: splitWsAux cs []
    else splitWsAux cs (c :: acc)

/-- The whitespace-separated words of a string (Python `s.split()`). -/
def pyWords (s : String) : List (List Char) := splitWsAux s.data []

/-- `_norm` from `executor_playwright.py`:
`re.sub(r"\s+", " ", s or "").strip().lower()` — collapse whitespace runs to
one space, trim, lowercase.  Equivalently: lowercase the words joined by a
single space. -/
def pyNorm (s : String) : String :=
  String.mk ((List.intercalate [' '] (pyWords s)).map Char.toLower)

/-- Drop leading Python whitespace. -/
def dropLeadingWs : List Char → List Char
  | [] => []
  | c :: cs => if isPyWs c then dropLeadingWs cs else c :: cs

/-- Python `str.strip()`. -/
def pyStrip (s : String) : String :=
  String.mk (dropLeadingWs ((dropLeadingWs s.data.reverse).reverse))

/-- Python `str.lower()` (ASCII case folding suffices for the engine). -/
def pyLower (s : String) : String := String.mk (s.data.map Char.toLower)

/-- Python `s.strip().lower()`, used on action names in the executor. -/
def pyStripLower (s : String) : String := pyLower (pyStrip s)

/-- Prefix test: `prefOf pre hay` is true when `pre` is a prefix of `hay`. -/
def prefOf : List Char → List Char → Bool
  | [], _ => true
  | _ :: _, [] => false
  | a :: as, b :: bs => a = b && prefOf as bs

/-- Does `n` occur as a contiguous run inside the second list? -/
def infixOf (n : List Char) : List Char → Bool
  | [] => prefOf n []
  | c :: t => prefOf n (c :: t) || infixOf n t

/-- Python substring test `needle in hay`. -/
def strContains (hay needle : String) : Bool := infixOf needle.data hay.data

/-- Python `hay.startswith(pre)`. -/
def strStarts (hay pre : String) : Bool := prefOf pre.data hay.data

/-- Python truthiness of an optional string: `None` and `""` are falsy. -/
def optTruthy (o : Option String) : Bool := o.getD "" ≠ ""

/-- Python `a or b` on optional strings: keep `a` when truthy, else `b`. -/
def pyOrOpt (a b : Option String) : Option String :=
  if optTruthy a then a else b

/-- Python slice `s[:140]` used to truncate element names. -/
def strTake140 (s : String) : String := String.mk (s.data.take 140)

/-! ## Data model: element records, bounding boxes, match specifications -/

/-- A `bbox` dictionary `{x, y, width, height}` in viewport coordinates. -/
structure Box where
  x : ℚ
  y : ℚ
  width : ℚ
  height : ℚ
deriving DecidableEq, Repr

/-- One record of the canonical minimal element list (`elements_min`).
Dictionary keys that may be absent or `None` are `Option`s; `name` is a
plain string since every consumer immediately collapses `None` to `""`. -/
structure Elem where
  uid : String := ""
  role : Option String := none
  tag : Option String := none
  name : String := ""
  selector_pref : Option String := none
  selector : Option String := none
  bbox : Option Box := none
  frame_path : List Nat := []
  shadow_path : Option String := none
deriving DecidableEq, Repr

/-- The `match` object consumed by `_rank_candidates`
(`{text, role, exact, not_contains}` with the Python defaults). -/
structure MatchSpec where
  text : String := ""
  role : Option String := none
  exact : Bool := false
  not_contains : List String := []
deriving DecidableEq, Repr

/-- `_NEG_DEFAULT` from `executor_playwright.py` line 283. -/
def NEG_DEFAULT : List String := ["with google", "with apple", "with facebook", "with"]

/-! ## Candidate scoring (`_score_text`, `_is_blocked`, `_rank_candidates`) -/

/-- `_score_text` on already-normalized strings. -/
def scoreTextN (qn tn : String) : ℚ :=
  if qn = "" || tn = "" then 0
  else if qn = tn then 1
  else if strStarts tn qn then 0.85
  else if strContains tn qn then 0.6
  else 0

/-- `_score_text(q, t)` from `executor_playwright.py` lines 285-296. -/
def scoreText (q t : String) : ℚ := scoreTextN (pyNorm q) (pyNorm t)

/-- `_is_blocked(text, not_contains)` from lines 298-303: the normalized
name contains some non-empty normalized blocklist entry. -/
def isBlocked (text : String) (ncs : List String) : Bool :=
  let tn := pyNorm text
  ncs.any (fun bad => pyNorm bad ≠ "" && strContains tn (pyNorm bad))

/-- The text component of a candidate's score (lines 327-331): the
`_score_text` value, a flat `0.3` when the query text is empty, forced to
`0` by `exact` when normalized names differ. -/
def txtScoreFinal (m : MatchSpec) (nname : String) : ℚ :=
  let s : ℚ := if m.text ≠ "" then scoreTextN (pyNorm m.text) nname else 0.3
  if m.exact && pyNorm m.text ≠ nname then 0 else s

/-- Role-preference bonus (lines 334-337): `_PREFER_ROLES = (textbox,
button, link)` with bonus `0.3 - 0.1 * index`. -/
def roleBonus (nrole : String) : ℚ :=
  if nrole = "textbox" then 0.3
  else if nrole = "button" then 0.2
  else if nrole = "link" then 0.1
  else 0

/-- Center x-coordinate of a box. -/
def bcx (b : Box) : ℚ := b.x + b.width / 2

/-- Center y-coordinate of a box. -/
def bcy (b : Box) : ℚ := b.y + b.height / 2

/-- Squared Euclidean distance between two box centers; the code computes
`hypot` of the differences, i.e. the square root of this quantity. -/
def sqDist (b c : Box) : ℚ := (bcx b - bcx c) * (bcx b - bcx c) + (bcy b - bcy c) * (bcy b - bcy c)

/-- The squared-distance payload of a candidate's proximity bonus
(lines 340-347).  When no previous target or either bounding box is
missing the code adds no bonus; since the bonus `max(0, 0.25 - min(d/1000,
0.25))` is exactly `0` once the squared distance reaches `250² = 62500`,
the absent case is encoded by `62500`. -/
def nsqOf (last : Option Elem) (el : Elem) : ℚ :=
  match last, el.bbox with
  | some lt, some b =>
    match lt.bbox with
    | some lb => sqDist b lb
    | none => 62500
  | _, _ => 62500

/-- Eligibility filter of the `_rank_candidates` loop (lines 316-332):
role strictness, non-empty raw name, blocklist (custom entries plus
`_NEG_DEFAULT`), and a positive final text score. -/
def eligible (m : MatchSpec) (el : Elem) : Bool :=
  let nrole := pyNorm (el.role.getD "")
  !(optTruthy m.role && pyNorm (m.role.getD "") ≠ nrole)
  && el.name ≠ ""
  && !(isBlocked el.name (m.not_contains ++ NEG_DEFAULT))
  && decide (0 < txtScoreFinal m (pyNorm el.name))

/-- A candidate's score, split into its exact rational part
(`s_txt + s_role`) and the squared distance feeding `s_near`. -/
structure Score where
  base : ℚ
  nsq : ℚ
deriving DecidableEq, Repr

/-- Score of one elements entry, or `none` when the loop `continue`s. -/
def candScore (m : MatchSpec) (last : Option Elem) (el : Elem) : Option Score :=
  if eligible m el then
    some ⟨txtScoreFinal m (pyNorm el.name) + roleBonus (pyNorm (el.role.getD "")), nsqOf last el⟩
  else none

/-- Clamp a squared distance into `[0, 62500]`; squared distances are
nonnegative, so the lower clamp is the identity on every value the code
produces, and the upper clamp mirrors `min(d/1000, 0.25)`. -/
def clampSq (q : ℚ) : ℚ := min (max q 0) 62500

/-- Decide `Real.sqrt b ≤ Real.sqrt a + c` for rationals `a b ≥ 0` by case
analysis and squaring (`w = b - a - c²`). -/
def sqrtLeAddBool (b a c : ℚ) : Bool :=
  let w := b - a - c * c
  if 0 ≤ c then decide (w ≤ 0) || (decide (0 < c) && decide (w * w ≤ 4 * (c * c) * a))
  else decide (c * c ≤ a) && decide (w ≤ 0) && decide (4 * (c * c) * a ≤ w * w)

/-- Exact comparison of two total scores.  The total score of `⟨base, q⟩`
is `base + max(0, 0.25 - min(sqrt q / 1000, 0.25)) = base + 1/4 -
sqrt(clampSq q)/1000`, so `s₁ ≤ s₂` iff `sqrt(clampSq s₂.nsq) ≤
sqrt(clampSq s₁.nsq) + 1000*(s₂.base - s₁.base)`. -/
def scoreLe (s₁ s₂ : Score) : Bool :=
  sqrtLeAddBool (clampSq s₂.nsq) (clampSq s₁.nsq) (1000 * (s₂.base - s₁.base))

/-- The real-valued total score `s_txt + s_role + s_near` of a candidate. -/
noncomputable def totalScore (s : Score) : ℝ :=
  (s.base : ℝ) + (1 / 4 - Real.sqrt (clampSq s.nsq) / 1000)

/-- Sort order on scored candidates: `p` before `q` iff the Python sort key
`-score` satisfies `-score p ≤ -score q`, i.e. `score q ≤ score p`. -/
def scoreRel (p q : Score × Elem) : Prop := scoreLe q.1 p.1 = true

instance : DecidableRel scoreRel := fun p q => by
  unfold scoreRel; infer_instance

/-- The `cands` list of `_rank_candidates` (line 350), in element order. -/
def candPairs (els : List Elem) (m : MatchSpec) (last : Option Elem) : List (Score × Elem) :=
  els.filterMap (fun el => (candScore m last el).map (fun s => (s, el)))

/-- `_rank_candidates(elements_min, match, last_target)` (lines 305-353):
score the eligible candidates and stably sort them by descending total
score (Python sorts ascending by the key `-score`, stably). -/
def rankCandidates (els : List Elem) (m : MatchSpec) (last : Option Elem) : List Elem :=
  (List.insertionSort scoreRel (candPairs els m last)).map Prod.snd

/-! ## Correctness of the exact score comparison -/

theorem clampSq_nonneg (q : ℚ) : 0 ≤ clampSq q :=
  le_min (le_max_right q 0) (by norm_num)

theorem clampSq_of_range {q : ℚ} (h0 : 0 ≤ q) (h1 : q ≤ 62500) : clampSq q = q := by
  unfold clampSq
  rw [max_eq_left h0, min_eq_left h1]

theorem sqrt_le_add_iff_nonneg_c {a b c : ℝ} (ha : 0 ≤ a) (hb : 0 ≤ b) (hc : 0 ≤ c) :
    Real.sqrt b ≤ Real.sqrt a + c ↔
      (b - a - c * c ≤ 0 ∨ (0 < c ∧ (b - a - c * c) * (b - a - c * c) ≤ 4 * (c * c) * a)) := by
  have hx0 : 0 ≤ Real.sqrt a := Real.sqrt_nonneg a
  have hy0 : 0 ≤ Real.sqrt b := Real.sqrt_nonneg b
  have hx2 : Real.sqrt a * Real.sqrt a = a := Real.mul_self_sqrt ha
  have hy2 : Real.sqrt b * Real.sqrt b = b := Real.mul_self_sqrt hb
  constructor
  · intro h
    have hsq : b ≤ (Real.sqrt a + c) * (Real.sqrt a + c) := by
      calc b = Real.sqrt b * Real.sqrt b := hy2.symm
        _ ≤ (Real.sqrt a + c) * (Real.sqrt a + c) := by
            exact mul_self_le_mul_self hy0 h
    by_cases hw : b - a - c * c ≤ 0
    · exact Or.inl hw
    · push_neg at hw
      refine Or.inr ⟨?_, ?_⟩
      · rcases lt_or_eq_of_le hc with h0 | h0
        · exact h0
        · exfalso; nlinarith
      · nlinarith
  · intro h
    have key : b ≤ (Real.sqrt a + c) * (Real.sqrt a + c) := by
      rcases h with hw | ⟨hc0, hw2⟩
      · nlinarith
      · by_cases hw : b - a - c * c ≤ 0
        · nlinarith
        · push_neg at hw
          have h2cx0 : 0 ≤ 2 * c * Real.sqrt a := by positivity
          have hsum : 0 < 2 * c * Real.sqrt a + (b - a - c * c) := by linarith
          have hprod : 0 ≤ (2 * c * Real.sqrt a - (b - a - c * c)) *
              (2 * c * Real.sqrt a + (b - a - c * c)) := by
            have hexp : (2 * c * Real.sqrt a - (b - a - c * c)) *
                (2 * c * Real.sqrt a + (b - a - c * c)) =
                4 * (c * c) * (Real.sqrt a * Real.sqrt a) -
                  (b - a - c * c) * (b - a - c * c) := by ring
            rw [hexp, hx2]; linarith
          have hwle : b - a - c * c ≤ 2 * c * Real.sqrt a := by nlinarith
          nlinarith
    have h1 : Real.sqrt b ≤ Real.sqrt ((Real.sqrt a + c) * (Real.sqrt a + c)) :=
      Real.sqrt_le_sqrt key
    rwa [Real.sqrt_mul_self (by positivity)] at h1

theorem sqrt_le_add_iff_neg_c {a b c : ℝ} (ha : 0 ≤ a) (hb : 0 ≤ b) (hc : c < 0) :
    Real.sqrt b ≤ Real.sqrt a + c ↔
      (c * c ≤ a ∧ b - a - c * c ≤ 0 ∧ 4 * (c * c) * a ≤ (b - a - c * c) * (b - a - c * c)) := by
  have hx0 : 0 ≤ Real.sqrt a := Real.sqrt_nonneg a
  have hy0 : 0 ≤ Real.sqrt b := Real.sqrt_nonneg b
  have hx2 : Real.sqrt a * Real.sqrt a = a := Real.mul_self_sqrt ha
  have hy2 : Real.sqrt b * Real.sqrt b = b := Real.mul_self_sqrt hb
  constructor
  · intro h
    have hxc : 0 ≤ Real.sqrt a + c := le_trans hy0 h
    have hsq : b ≤ (Real.sqrt a + c) * (Real.sqrt a + c) := by
      calc b = Real.sqrt b * Real.sqrt b := hy2.symm
        _ ≤ (Real.sqrt a + c) * (Real.sqrt a + c) := mul_self_le_mul_self hy0 h
    have hwle : b - a - c * c ≤ 2 * c * Real.sqrt a := by nlinarith
    have h2cx : 2 * c * Real.sqrt a ≤ 0 := by nlinarith
    have hsq2 : (-(2 * c * Real.sqrt a)) * (-(2 * c * Real.sqrt a)) ≤
        (-(b - a - c * c)) * (-(b - a - c * c)) :=
      mul_self_le_mul_self (by linarith) (by linarith)
    refine ⟨by nlinarith, by linarith, by nlinarith⟩
  · rintro ⟨hca, hw, hw2⟩
    have hxc : 0 ≤ Real.sqrt a + c := by
      have : Real.sqrt (c * c) ≤ Real.sqrt a := Real.sqrt_le_sqrt hca
      rw [Real.sqrt_mul_self_eq_abs, abs_of_neg hc] at this
      linarith
    have key : b ≤ (Real.sqrt a + c) * (Real.sqrt a + c) := by nlinarith
    have h1 : Real.sqrt b ≤ Real.sqrt ((Real.sqrt a + c) * (Real.sqrt a + c)) :=
      Real.sqrt_le_sqrt key
    rwa [Real.sqrt_mul_self hxc] at h1

theorem sqrtLeAddBool_iff {a b : ℚ} (c : ℚ) (ha : 0 ≤ a) (hb : 0 ≤ b) :
    sqrtLeAddBool b a c = true ↔
      Real.sqrt (b : ℝ) ≤ Real.sqrt (a : ℝ) + (c : ℝ) := by
  have ha' : (0 : ℝ) ≤ (a : ℝ) := by exact_mod_cast ha
  have hb' : (0 : ℝ) ≤ (b : ℝ) := by exact_mod_cast hb
  unfold sqrtLeAddBool
  by_cases hc : 0 ≤ c
  · have hc' : (0 : ℝ) ≤ (c : ℝ) := by exact_mod_cast hc
    rw [if_pos hc, sqrt_le_add_iff_nonneg_c ha' hb' hc']
    simp only [Bool.or_eq_true, Bool.and_eq_true, decide_eq_true_eq]
    constructor
    · rintro (h | ⟨h1, h2⟩)
      · exact Or.inl (by exact_mod_cast h)
      · exact Or.inr ⟨by exact_mod_cast h1, by exact_mod_cast h2⟩
    · rintro (h | ⟨h1, h2⟩)
      · exact Or.inl (by exact_mod_cast h)
      · exact Or.inr ⟨by exact_mod_cast h1, by exact_mod_cast h2⟩
  · push_neg at hc
    have hc' : (c : ℝ) < 0 := by exact_mod_cast hc
    rw [if_neg (not_le.mpr hc), sqrt_le_add_iff_neg_c ha' hb' hc']
    simp only [Bool.and_eq_true, decide_eq_true_eq]
    constructor
    · rintro ⟨⟨h1, h2⟩, h3⟩
      exact ⟨by exact_mod_cast h1, by exact_mod_cast h2, by exact_mod_cast h3⟩
    · rintro ⟨h1, h2, h3⟩
      exact ⟨⟨by exact_mod_cast h1, by exact_mod_cast h2⟩, by exact_mod_cast h3⟩

/-- The exact comparator `scoreLe` decides order of real total scores. -/
theorem scoreLe_iff (s₁ s₂ : Score) :
    scoreLe s₁ s₂ = true ↔ totalScore s₁ ≤ totalScore s₂ := by
  unfold scoreLe totalScore
  rw [sqrtLeAddBool_iff _ (clampSq_nonneg s₁.nsq) (clampSq_nonneg s₂.nsq)]
  constructor
  · intro h; push_cast at h; linarith
  · intro h; push_cast; linarith

instance : IsTotal (Score × Elem) scoreRel :=
  ⟨fun p q => by
    unfold scoreRel
    rcases le_total (totalScore q.1) (totalScore p.1) with h | h
    · exact Or.inl ((scoreLe_iff _ _).mpr h)
    · exact Or.inr ((scoreLe_iff _ _).mpr h)⟩

instance : IsTrans (Score × Elem) scoreRel :=
  ⟨fun p q r h₁ h₂ => by
    unfold scoreRel at h₁ h₂ ⊢
    exact (scoreLe_iff _ _).mpr
      (le_trans ((scoreLe_iff _ _).mp h₂) ((scoreLe_iff _ _).mp h₁))⟩

/-! ## Target resolution (`_resolve_target_selector`, `_find_element_by_uid`,
`_find_by_match`, the per-step resolution chain) -/

/-- A step's `target` dictionary.  Each field records whether the key is
present; a key present with a `None` value is treated as absent, matching
every use in the engine of practical (string/list/bool valued) targets. -/
structure Target where
  selector : Option String := none
  uid : Option String := none
  mtch : Option MatchSpec := none
  role : Option String := none
  name : Option String := none
  text : Option String := none
  not_contains : Option (List String) := none
  exact : Option Bool := none
deriving DecidableEq, Repr

/-- One plan step.  `text`/`value` keys for the payload; the step-level
`name`/`role` keys feed the last-resort `aria://` synthesis. -/
structure Step where
  action : String := ""
  text : Option String := none
  value : Option String := none
  target : Option Target := none
  name : Option String := none
  role : Option String := none
deriving DecidableEq, Repr

/-- `_resolve_target_selector(element)` (lines 384-402): `selector_pref`,
then a synthesized `aria://role::name` when both are truthy, then
`selector`, else `None`. -/
def resolveTargetSelector (el : Elem) : Option String :=
  if optTruthy el.selector_pref then el.selector_pref
  else if el.role.getD "" ≠ "" && el.name ≠ "" then
    some ("aria://" ++ pyLower (pyStrip (el.role.getD "")) ++ "::" ++ pyStrip el.name)
  else if optTruthy el.selector then el.selector
  else none

/-- `_find_element_by_uid` (lines 404-408). -/
def findElementByUid (els : List Elem) (uid : String) : Option Elem :=
  els.find? (fun el => el.uid = uid)

/-- `_find_by_match(elements_min, role, name)` (lines 410-432): first an
exact normalized role+name pass, then a role+substring pass. -/
def findByMatch (els : List Elem) (role? name? : Option String) : Option Elem :=
  let rn := pyNorm (role?.getD "")
  let nn := pyNorm (name?.getD "")
  match els.find? (fun el =>
      (rn = "" || pyNorm (el.role.getD "") = rn) &&
      (nn = "" || pyNorm el.name = nn)) with
  | some el => some el
  | none =>
    els.find? (fun el =>
      (rn = "" || pyNorm (el.role.getD "") = rn) &&
      (nn = "" || strContains (pyNorm el.name) nn))

/-- The upgraded `MatchSpec` built from a legacy `(role, name)` target that
carries `not_contains`/`exact` (lines 599-604 and 646-652). -/
def legacyToMatch (tgt : Target) : MatchSpec :=
  { role := tgt.role
    text := if optTruthy tgt.name then tgt.name.getD "" else tgt.text.getD ""
    exact := tgt.exact.getD false
    not_contains := tgt.not_contains.getD [] }

/-- The target-resolution chain of `run_plan_stepwise` (lines 577-623),
returning the chosen element (when any) and the derived selector, or
`none` when the Python code raises. -/
def resolveStepTarget (els : List Elem) (last : Option Elem) (step : Step) :
    Option (Option Elem × Option String) :=
  let tgt := step.target.getD {}
  match tgt.selector with
  | some s => some (none, some s)
  | none =>
  match tgt.uid with
  | some u =>
    match findElementByUid els u with
    | none => none
    | some el => some (some el, resolveTargetSelector el)
  | none =>
  match tgt.mtch with
  | some m =>
    match rankCandidates els m last with
    | [] => none
    | el :: _ => some (some el, resolveTargetSelector el)
  | none =>
  if (tgt.role.isSome || tgt.name.isSome) && (tgt.not_contains.isSome || tgt.exact.isSome) then
    match rankCandidates els (legacyToMatch tgt) last with
    | [] => none
    | el :: _ => some (some el, resolveTargetSelector el)
  else if tgt.role.isSome || tgt.name.isSome then
    match findByMatch els tgt.role tgt.name with
    | none => none
    | some el => some (some el, resolveTargetSelector el)
  else
    if step.name.getD "" ≠ "" && step.role.getD "" ≠ "" then
      some (none, some ("aria://" ++ pyNorm (step.role.getD "") ++ "::" ++ step.name.getD ""))
    else none

/-! ## The step executor (`run_plan_stepwise`) over an abstract automation
primitive -/

/-- The automation-primitive capability consumed by the executor, over an
abstract page state `P`.  `click`/`typeText`/`waitUrl` return `none` when
the underlying primitive raises; `isVisible` swallows every exception and
returns a boolean; `after` is the observer callback wrapper `_after`,
whose exceptions are swallowed, hence a total state transformer. -/
structure Prim (P : Type) where
  isVisible : P → String → Bool
  click : P → String → Option P
  typeText : P → String → String → Option P
  waitUrl : P → String → Option P
  after : P → P

/-- `_is_visible` applied to a possibly-`None` selector: a `None` selector
raises inside `_is_visible`, which catches and returns `False`. -/
def optVisible {P : Type} (pr : Prim P) (p : P) : Option String → Bool
  | none => false
  | some s => pr.isVisible p s

/-- `<VARNAME>` substitution performed on `type`/`wait_url_contains`
payloads (lines 572-574). -/
def substVars (vars : List (String × String)) (text : String) : String :=
  vars.foldl (fun t kv => t.replace ("<" ++ kv.1 ++ ">") kv.2) text

/-- `_NAV_OPENER_NAMES` (lines 465-468). -/
def NAV_OPENER_NAMES : List String :=
  ["Menu", "Main menu", "Navigation", "Open navigation", "More", "More options",
   "Toggle navigation", "Show menu", "Close", "Open"]

/-- `_LOGO_NAMES` (lines 469-471). -/
def LOGO_NAMES : List String :=
  ["Adobe Express", "Express", "Adobe logo", "Home", "Go to Home"]

/-- Pass 1 of `_try_open_nav_and_retry_home` (lines 478-492): click a
nav-opener button, then retry visibility+click of the Home selector.
Per-element exceptions are swallowed, so a failed attempt threads its page
state into the next iteration. -/
def navPass1 {P : Type} (pr : Prim P) (homeSel : Option String) :
    List Elem → P → Bool × P
  | [], p => (false, p)
  | el :: rest, p =>
    if pyNorm (el.role.getD "") = "button" &&
        (NAV_OPENER_NAMES.map pyNorm).contains (pyNorm el.name) then
      match resolveTargetSelector el with
      | openerSel =>
        if optTruthy openerSel && optVisible pr p openerSel then
          match pr.click p (openerSel.getD "") with
          | none => navPass1 pr homeSel rest p
          | some p' =>
            if optVisible pr p' homeSel then
              match pr.click p' (homeSel.getD "") with
              | none => navPass1 pr homeSel rest p'
              | some p'' => (true, p'')
            else navPass1 pr homeSel rest p'
        else navPass1 pr homeSel rest p
    else navPass1 pr homeSel rest p

/-- Pass 2 of `_try_open_nav_and_retry_home` (lines 495-505): click a
logo-like element directly. -/
def navPass2 {P : Type} (pr : Prim P) :
    List Elem → P → Bool × P
  | [], p => (false, p)
  | el :: rest, p =>
    if ["link", "img", "button"].contains (pyNorm (el.role.getD "")) &&
        (LOGO_NAMES.map pyNorm).contains (pyNorm el.name) then
      match resolveTargetSelector el with
      | logoSel =>
        if optTruthy logoSel && optVisible pr p logoSel then
          match pr.click p (logoSel.getD "") with
          | none => navPass2 pr rest p
          | some p' => (true, p')
        else navPass2 pr rest p
    else navPass2 pr rest p

/-- Pass 3 of `_try_open_nav_and_retry_home` (lines 508-518): click any
link whose normalized name contains "home". -/
def navPass3 {P : Type} (pr : Prim P) :
    List Elem → P → Bool × P
  | [], p => (false, p)
  | el :: rest, p =>
    if pyNorm (el.role.getD "") = "link" &&
        strContains (pyNorm el.name) "home" then
      match resolveTargetSelector el with
      | sel =>
        if optTruthy sel && optVisible pr p sel then
          match pr.click p (sel.getD "") with
          | none => navPass3 pr rest p
          | some p' => (true, p')
        else navPass3 pr rest p
    else navPass3 pr rest p

/-- `_try_open_nav_and_retry_home` (lines 473-520). -/
def tryOpenNavAndRetryHome {P : Type} (pr : Prim P) (els : List Elem)
    (homeSel : Option String) (p : P) : Bool × P :=
  match navPass1 pr homeSel els p with
  | (true, p') => (true, p')
  | (false, p') =>
    match navPass2 pr els p' with
    | (true, p'') => (true, p'')
    | (false, p'') => navPass3 pr els p''

/-- The pre-click "negative keyword" re-check and second-candidate
substitution (lines 640-657).  The chosen element's name is tested against
the step's top-level `not_contains` list only; when it hits and a
`match`-style query can be rebuilt, the second-ranked candidate (when one
exists) replaces the choice. -/
def clickAdjust (els : List Elem) (tgt : Target) (last : Option Elem)
    (chosen : Option Elem) (sel : Option String) : Option Elem × Option String :=
  match chosen with
  | none => (none, sel)
  | some el =>
    if isBlocked el.name (tgt.not_contains.getD []) then
      let m2 : Option MatchSpec :=
        if tgt.mtch.isSome then tgt.mtch
        else if tgt.role.isSome || tgt.name.isSome then some (legacyToMatch tgt)
        else none
      match m2 with
      | none => (some el, sel)
      | some m =>
        let alts := rankCandidates els m last
        match alts with
        | _ :: second :: _ => (some second, resolveTargetSelector second)
        | _ => (some el, sel)
    else (some el, sel)

/-- The normalized name driving the Home-fallback trigger (line 661):
`_norm((chosen or {}).get("name") or (target.get("match") or {}).get("text")
or target.get("name") or "")`. -/
def homeTriggerName (tgt : Target) (chosen : Option Elem) : String :=
  pyNorm (
    if (chosen.map Elem.name).getD "" ≠ "" then (chosen.map Elem.name).getD ""
    else if (tgt.mtch.map MatchSpec.text).getD "" ≠ "" then (tgt.mtch.map MatchSpec.text).getD ""
    else tgt.name.getD "")

/-- Outcome of executing one step. -/
inductive StepOutcome (P : Type) where
  | cont (last : Option Elem) (p : P)
  | finished (p : P)
  | failed (p : P)
deriving Repr

/-- One iteration of the `for step in steps` loop of `run_plan_stepwise`
(lines 557-691): the entire body runs inside a `try` whose handler turns
any raise into overall failure. -/
def execStep {P : Type} (pr : Prim P) (els : List Elem) (vars : List (String × String))
    (step : Step) (last : Option Elem) (p : P) : StepOutcome P :=
  let action := pyStripLower step.action
  if action = "" then .cont last p
  else if action = "end" then .finished p
  else
    let text := substVars vars (step.text.getD (step.value.getD ""))
    let tgt := step.target.getD {}
    match resolveStepTarget els last step with
    | none => .failed p
    | some (chosen, sel) =>
      if sel.getD "" = "" then .failed p
      else if action = "type" then
        if !pr.isVisible p (sel.getD "") then .failed p
        else
          match pr.typeText p (sel.getD "") text with
          | none => .failed p
          | some p' => .cont (chosen.orElse (fun _ => last)) (pr.after p')
      else if action = "click" then
        let adj := clickAdjust els tgt last chosen sel
        if !optVisible pr p adj.2 then
          if strContains (homeTriggerName tgt adj.1) "home" then
            match tryOpenNavAndRetryHome pr els adj.2 p with
            | (true, p') => .cont none (pr.after p')
            | (false, p') => .failed p'
          else .failed p
        else
          match pr.click p (adj.2.getD "") with
          | none => .failed p
          | some p' => .cont ((adj.1).orElse (fun _ => last)) (pr.after p')
      else if action = "wait_url_contains" then
        if text = "" then .failed p
        else
          match pr.waitUrl p text with
          | none => .failed p
          | some p' => .cont last (pr.after p')
      else .cont last p

/-- The step loop: a failed step aborts with `False`, `end` returns `True`
immediately, exhausting the steps returns `True` (lines 557-693). -/
def runSteps {P : Type} (pr : Prim P) (els : List Elem) (vars : List (String × String)) :
    List Step → Option Elem → P → Bool × P
  | [], _, p => (true, p)
  | step :: rest, last, p =>
    match execStep pr els vars step last p with
    | .cont last' p' => runSteps pr els vars rest last' p'
    | .finished p' => (true, p')
    | .failed p' => (false, p')

/-- `run_plan_stepwise(page, element_index_min, plan, ...)` (lines
523-693): missing or null `steps` collapse to the empty list, execution
starts with no previous target. -/
def runPlanStepwise {P : Type} (pr : Prim P) (els : List Elem)
    (steps? : Option (List Step)) (vars : List (String × String)) (p : P) : Bool × P :=
  runSteps pr els vars (steps?.getD []) none p

/-! ## The recovery loop (`run_gui_agent_loop.py`, one iteration of the
`while` loop, lines 31-78) -/

/-- The collaborators of one loop round, threading an abstract world state
`S`: `snapshot_page` (returning the minimal element list), the planner
`plan_actions` (given the instruction and snapshot), and
`run_plan_stepwise` (given the snapshot and plan).  Plans are opaque. -/
structure LoopOracle (S Plan : Type) where
  snapshot : S → List Elem × S
  plan : String → List Elem → S → Plan × S
  exec : List Elem → Plan → S → Bool × S

/-- One round of the loop (lines 32-78): snapshot, plan, execute; on
failure re-snapshot, re-plan with the same instruction, execute once more
and take that result. -/
def runRound {S Plan : Type} (o : LoopOracle S Plan) (prompt : String) (s0 : S) : Bool × S :=
  let m1 := o.snapshot s0
  let p1 := o.plan prompt m1.1 m1.2
  let r1 := o.exec m1.1 p1.1 p1.2
  if r1.1 then r1
  else
    let m2 := o.snapshot r1.2
    let p2 := o.plan prompt m2.1 m2.2
    o.exec m2.1 p2.1 p2.2

/-- Observable events of a loop round, used to count collaborator calls. -/
inductive LoopEv where
  | snap
  | planned (prompt : String)
  | execd
deriving DecidableEq, Repr

/-- Wrap an oracle so every collaborator call is appended to a log. -/
def instrument {S Plan : Type} (o : LoopOracle S Plan) :
    LoopOracle (S × List LoopEv) Plan where
  snapshot := fun st =>
    let r := o.snapshot st.1
    (r.1, (r.2, st.2 ++ [.snap]))
  plan := fun pr m st =>
    let r := o.plan pr m st.1
    (r.1, (r.2, st.2 ++ [.planned pr]))
  exec := fun m pl st =>
    let r := o.exec m pl st.1
    (r.1, (r.2, st.2 ++ [.execd]))

/-! ## The snapshot fuser (`snapshot_runtime.py`) -/

/-- Computed-style fields consulted by `_is_visible_like`. -/
structure Style where
  display : Option String := none
  visibility : Option String := none
deriving DecidableEq, Repr

/-- One DOM-traversal node as ingested by `snapshot_page` (lines 193-201):
the JS traversal output plus the assigned `uid`. -/
structure DomNode where
  uid : String := ""
  tag : String := ""
  role_attr : Option String := none
  name : Option String := none
  attrs : List (String × String) := []
  style : Style := {}
  bbox : Option Box := none
  css : Option String := none
  frame_path : List Nat := []
  shadow_path : Option String := none
deriving DecidableEq, Repr

/-- One flattened accessibility node (lines 176-188); the state flags are
not consulted by the fuser. -/
structure AxNode where
  role : Option String := none
  name : Option String := none
  description : Option String := none
  frame_path : List Nat := []
deriving DecidableEq, Repr

/-- The `{"role","name","description"}` dictionary attached to an aligned
full record (line 237). -/
structure AxInfo where
  role : Option String := none
  name : Option String := none
  description : Option String := none
deriving DecidableEq, Repr

/-- Attribute-map lookup `attrs.get(k)`. -/
def attrsGet (attrs : List (String × String)) (k : String) : Option String :=
  (attrs.find? (fun kv => kv.1 = k)).map Prod.snd

/-- `_str_or_none` (lines 10-13): strip, empty becomes `None`. -/
def strOrNone (x : Option String) : Option String :=
  x.bind (fun s => let t := pyStrip s; if t = "" then none else some t)

/-- Python `a or b or ... or None` over optional strings: the first truthy
entry, collapsing an all-falsy chain to `None`. -/
def pyOrChainNone (l : List (Option String)) : Option String :=
  match l.find? optTruthy with
  | some o => o
  | none => none

/-- `_is_visible_like(node)` (lines 15-21): not `display:none` or
`visibility:hidden`, and both box dimensions at least one pixel. -/
def visLike (style : Style) (bbox : Option Box) : Bool :=
  if style.display = some "none" || style.visibility = some "hidden" then false
  else
    decide (1 ≤ (bbox.map Box.width).getD 0) && decide (1 ≤ (bbox.map Box.height).getD 0)

/-- `_preferred_selector(tag, attrs, css)` (lines 23-32). -/
def preferredSelector (tag : String) (attrs : List (String × String)) (css : Option String) :
    Option String :=
  if optTruthy (attrsGet attrs "aria-label") then
    some ("[aria-label=\"" ++ (attrsGet attrs "aria-label").getD "" ++ "\"]")
  else if tag = "input" && optTruthy (attrsGet attrs "name") then
    some ("input[name=\"" ++ (attrsGet attrs "name").getD "" ++ "\"]")
  else if tag = "a" && optTruthy (attrsGet attrs "href") then
    some ("a[href=\"" ++ (attrsGet attrs "href").getD "" ++ "\"]")
  else if optTruthy css then css
  else none

/-- `_aria_selector(role, name)` (lines 34-36). -/
def ariaSelector (role name : Option String) : Option String :=
  if !optTruthy role || !optTruthy name then none
  else some ("aria://" ++ pyLower (pyStrip (role.getD "")) ++ "::" ++ pyStrip (name.getD ""))

/-- `INTERACTIVE_ROLES` (line 144). -/
def INTERACTIVE_ROLES : List String :=
  ["button", "link", "textbox", "checkbox", "radio", "combobox", "menuitem",
   "switch", "tab", "listbox", "option"]

/-- `INTERACTIVE_TAGS` (line 145). -/
def INTERACTIVE_TAGS : List String :=
  ["input", "button", "a", "select", "textarea", "label"]

/-- The accessibility-role set admitted by the AX-only fallback (line 268);
unlike `INTERACTIVE_ROLES` it omits `switch`. -/
def FALLBACK_AX_ROLES : List String :=
  ["button", "link", "textbox", "combobox", "tab", "menuitem", "checkbox",
   "radio", "listbox", "option"]

/-- Apply the ingestion of line 196: `n["name"] = _str_or_none(n["name"])`. -/
def prepNode (n : DomNode) : DomNode := { n with name := strOrNone n.name }

/-- `_is_interactive(e)` (lines 147-157) as invoked on full records (line
243): those records carry no `role_attr` key, so the role falls back to
the attribute map. -/
def isInteractiveRec (tag : String) (attrs : List (String × String))
    (style : Style) (bbox : Option Box) : Bool :=
  if !visLike style bbox then false
  else
    let tagL := pyLower tag
    let roleAttr := pyLower ((attrsGet attrs "role").getD "")
    INTERACTIVE_ROLES.contains roleAttr
    || INTERACTIVE_TAGS.contains tagL
    || (tagL = "span" && roleAttr = "link")
    || ["aria-label", "tabindex", "onclick", "href", "type",
        "data-react-aria-pressable"].any (fun k => (attrsGet attrs k).isSome)
    || attrs.any (fun kv => strStarts kv.1 "data-social")

/-! ### The rapidfuzz `token_set_ratio` similarity used for alignment -/

/-- Lexicographic comparison of character lists by code point. -/
def lexLeChars : List Char → List Char → Bool
  | [], _ => true
  | _ :: _, [] => false
  | a :: as, b :: bs => if a = b then lexLeChars as bs else decide (a < b)

/-- String comparison backing Python `sorted` on tokens. -/
def strLe (a b : String) : Bool := lexLeChars a.data b.data

/-- Insert a string into an ascending list. -/
def insertStr (x : String) : List String → List String
  | [] => [x]
  | y :: ys => if strLe x y then x :: y :: ys else y :: insertStr x ys

/-- `sorted(set(tokens))`: deduplicate, then sort ascending. -/
def uniqueSorted (l : List String) : List String :=
  l.eraseDups.foldr insertStr []

/-- The whitespace-delimited tokens of a string. -/
def pyTokens (s : String) : List String := (pyWords s).map (fun w => String.mk w)

/-- `" ".join(tokens)`. -/
def joinSpace (l : List String) : String := String.intercalate " " l

/-- Length of a longest common subsequence, defining the InDel distance
`|a| + |b| - 2·lcs` that normalizes rapidfuzz's `ratio`. -/
def lcsN : List Char → List Char → Nat
  | [], _ => 0
  | _ :: _, [] => 0
  | a :: as, b :: bs =>
    if a = b then lcsN as bs + 1
    else max (lcsN (a :: as) bs) (lcsN as (b :: bs))
termination_by l1 l2 => l1.length + l2.length
decreasing_by all_goals simp_arith

/-- `rapidfuzz.fuzz.token_set_ratio(s1, s2)` as a rational in `[0, 100]`:
tokenize, split into intersection and differences, short-circuit to `100`
when one difference is empty and the intersection is not, otherwise the
maximum of the three pairwise normalized InDel similarities of
`sect`, `sect + diff_ab`, `sect + diff_ba` (shared prefixes cancel, so the
similarities reduce to joined-string lengths and one InDel distance). -/
def tokenSetRatio (s1 s2 : String) : ℚ :=
  let ta := uniqueSorted (pyTokens s1)
  let tb := uniqueSorted (pyTokens s2)
  if ta = [] || tb = [] then 0
  else
    let sect := ta.filter (fun t => tb.contains t)
    let dab := ta.filter (fun t => !tb.contains t)
    let dba := tb.filter (fun t => !ta.contains t)
    if sect ≠ [] && (dab = [] || dba = []) then 100
    else
      let abJ := joinSpace dab
      let baJ := joinSpace dba
      let sectLen := (joinSpace sect).length
      let sepLen : Nat := if sectLen ≠ 0 then 1 else 0
      let sectAb := sectLen + sepLen + abJ.length
      let sectBa := sectLen + sepLen + baJ.length
      let dist := abJ.length + baJ.length - 2 * lcsN abJ.data baJ.data
      let r1 : ℚ := if sectAb + sectBa = 0 then 0
        else ((sectAb + sectBa - dist : Nat) : ℚ) / ((sectAb + sectBa : Nat) : ℚ)
      let r2 : ℚ := if sectLen + sectAb = 0 then 0
        else ((2 * sectLen : Nat) : ℚ) / ((sectLen + sectAb : Nat) : ℚ)
      let r3 : ℚ := if sectLen + sectBa = 0 then 0
        else ((2 * sectLen : Nat) : ℚ) / ((sectLen + sectBa : Nat) : ℚ)
      100 * max r1 (max r2 r3)

/-! ### AX to DOM alignment (lines 203-219) -/

/-- The display name of an accessibility node for alignment (line 207). -/
def axDisplayName (ax : AxNode) : String :=
  (pyOrChainNone [strOrNone ax.name, strOrNone ax.description]).getD ""

/-- The text-similarity part of an alignment score (line 213). -/
def alignTextScore (ax : AxNode) (dn : DomNode) : ℚ :=
  let axName := axDisplayName ax
  let dnText := dn.name.getD ""
  if axName ≠ "" || dnText ≠ "" then tokenSetRatio axName dnText / 100 else 0

/-- The role part of an alignment score (line 214). -/
def alignRoleBonus (ax : AxNode) (dn : DomNode) : ℚ :=
  match ax.role with
  | none => 0
  | some r =>
    if r ≠ "" && (dn.role_attr = some r || attrsGet dn.attrs "role" = some r) then 0.1 else 0

/-- The combined alignment score `0.85 * text + 0.15 * role` (line 215). -/
def alignScore (ax : AxNode) (dn : DomNode) : ℚ :=
  0.85 * alignTextScore ax dn + 0.15 * alignRoleBonus ax dn

/-- Visible-like DOM candidates restricted to the node's frame (lines
205, 208), with their traversal indices. -/
def sameFrameCands (dom : List DomNode) (ax : AxNode) : List (Nat × DomNode) :=
  (dom.enum.filter (fun p => visLike p.2.style p.2.bbox)).filter
    (fun p => p.2.frame_path = ax.frame_path)

/-- The strict-improvement argmax fold of lines 209-217: the first
candidate attaining the maximal score wins. -/
def pickBest (sc : DomNode → ℚ) :
    List (Nat × DomNode) → Option (Nat × DomNode) × ℚ → Option (Nat × DomNode) × ℚ
  | [], st => st
  | q :: rest, st =>
    if sc q.2 > st.2 then pickBest sc rest (some q, sc q.2) else pickBest sc rest st

/-- Alignment decision for one enumerated accessibility node (lines
209-219): keep the best-scoring candidate when its score reaches `0.5`. -/
def alignEntry (dom : List DomNode) (p : Nat × AxNode) : Option (Nat × Nat) :=
  let best := pickBest (alignScore p.2) (sameFrameCands dom p.2) (none, -1)
  match best.1 with
  | some q => if (1 : ℚ) / 2 ≤ best.2 then some (p.1, q.1) else none
  | none => none

/-- The `ax2dom` alignment map (lines 204-219) as an association list in
accessibility-traversal order. -/
def buildAx2Dom (dom : List DomNode) (ax : List AxNode) : List (Nat × Nat) :=
  ax.enum.filterMap (alignEntry dom)

/-! ### Full records and the canonical minimal list (lines 221-310) -/

/-- One `full_elems` record (lines 224-233), with the aligned
accessibility info patched in afterwards (lines 235-237). -/
structure FullRec where
  uid : String := ""
  tag : String := ""
  role : Option String := none
  name : Option String := none
  attrs : List (String × String) := []
  css : Option String := none
  bbox : Option Box := none
  style : Style := {}
  frame_path : List Nat := []
  shadow_path : Option String := none
  ax : Option AxInfo := none
  selector_pref : Option String := none
deriving DecidableEq, Repr

/-- The accessibility info written to DOM index `di`: iteration of
`ax2dom.items()` is in insertion order, so a later key overwrites. -/
def axInfoFor (ax : List AxNode) (a2d : List (Nat × Nat)) (di : Nat) : Option AxInfo :=
  match (a2d.filter (fun pr => pr.2 = di)).getLast? with
  | none => none
  | some pr =>
    match ax.get? pr.1 with
    | none => none
    | some axn => some ⟨axn.role, axn.name, axn.description⟩

/-- Build `full_elems` (lines 222-237). -/
def fullElems (dom : List DomNode) (ax : List AxNode) (a2d : List (Nat × Nat)) :
    List FullRec :=
  dom.enum.map (fun p =>
    { uid := p.2.uid, tag := p.2.tag,
      role := pyOrOpt p.2.role_attr (attrsGet p.2.attrs "role"),
      name := p.2.name, attrs := p.2.attrs, css := p.2.css, bbox := p.2.bbox,
      style := p.2.style, frame_path := p.2.frame_path, shadow_path := p.2.shadow_path,
      ax := axInfoFor ax a2d p.1,
      selector_pref := preferredSelector p.2.tag p.2.attrs p.2.css })

/-- The dedup key `(role, name, selector_pref)` (line 254). -/
abbrev DedupKey := Option String × String × Option String

/-- Key of one minimal record. -/
def dedupKey (it : Elem) : DedupKey := (it.role, it.name, it.selector_pref)

/-- Append an item unless its key was already seen (lines 254-258). -/
def dedupInsert (st : List Elem × List DedupKey) (it : Elem) :
    List Elem × List DedupKey :=
  if dedupKey it ∈ st.2 then st else (st.1 ++ [it], st.2 ++ [dedupKey it])

/-- Fold a per-entry item producer through the seen-set dedup. -/
def dedupFoldl {α : Type} (f : α → Option Elem) (l : List α)
    (st : List Elem × List DedupKey) : List Elem × List DedupKey :=
  l.foldl (fun st a =>
    match f a with
    | none => st
    | some it => dedupInsert st it) st

/-- The minimal record produced from one interactive full record (lines
242-253); no interactivity means no record. -/
def phase1Item (e : FullRec) : Option Elem :=
  if !isInteractiveRec e.tag e.attrs e.style e.bbox then none
  else
    let tag := pyLower e.tag
    let role := pyOrChainNone [e.role, (e.ax.map AxInfo.role).getD none]
    let name := (pyOrChainNone [e.name, (e.ax.map AxInfo.name).getD none]).getD ""
    let pref := pyOrOpt e.selector_pref (preferredSelector tag e.attrs e.css)
    some { uid := e.uid, role := role, tag := some tag, name := strTake140 name,
           selector_pref := pref, bbox := e.bbox, frame_path := e.frame_path,
           shadow_path := e.shadow_path }

/-- The AX-only fallback record for one unaligned accessibility node
(lines 261-284). -/
def phase2Item (a2d : List (Nat × Nat)) (p : Nat × AxNode) : Option Elem :=
  if (a2d.find? (fun pr => pr.1 = p.1)).isSome then none
  else
    let axRole := pyLower ((p.2.role).getD "")
    let axName := pyStrip ((p.2.name).getD "")
    if axRole = "" || axName = "" then none
    else if !FALLBACK_AX_ROLES.contains axRole then none
    else
      some { uid := "ax-" ++ toString p.1, role := some axRole, tag := none,
             name := strTake140 axName,
             selector_pref := ariaSelector (some axRole) (some axName),
             bbox := none, frame_path := p.2.frame_path, shadow_path := none }

/-- Phases 1 and 2 of the minimal list: the DOM pass then the AX-only
fallback pass, sharing one `seen` set (lines 239-284). -/
def minimalPhase12 (fulls : List FullRec) (ax : List AxNode) (a2d : List (Nat × Nat)) :
    List Elem × List DedupKey :=
  dedupFoldl (phase2Item a2d) ax.enum (dedupFoldl phase1Item fulls ([], []))

/-- The sort keys of last-resort candidates: `(-area, y)` (line 299).
Python's `sorted` would compare the record dictionaries themselves on a
full tie and raise; the model orders ties stably instead. -/
def lrLe (p q : ℚ × ℚ × FullRec) : Prop :=
  p.1 < q.1 ∨ (p.1 = q.1 ∧ p.2.1 ≤ q.2.1)

instance : DecidableRel lrLe := fun p q => by unfold lrLe; infer_instance

instance : IsTotal (ℚ × ℚ × FullRec) lrLe :=
  ⟨fun p q => by
    unfold lrLe
    rcases lt_trichotomy p.1 q.1 with h | h | h
    · exact Or.inl (Or.inl h)
    · rcases le_total p.2.1 q.2.1 with h2 | h2
      · exact Or.inl (Or.inr ⟨h, h2⟩)
      · exact Or.inr (Or.inr ⟨h.symm, h2⟩)
    · exact Or.inr (Or.inl h)⟩

instance : IsTrans (ℚ × ℚ × FullRec) lrLe :=
  ⟨fun p q r h₁ h₂ => by
    unfold lrLe at h₁ h₂ ⊢
    rcases h₁ with h₁ | ⟨e₁, l₁⟩ <;> rcases h₂ with h₂ | ⟨e₂, l₂⟩
    · exact Or.inl (lt_trans h₁ h₂)
    · exact Or.inl (e₂ ▸ h₁)
    · exact Or.inl (e₁ ▸ h₂)
    · exact Or.inr ⟨e₁.trans e₂, le_trans l₁ l₂⟩⟩

/-- The last-resort candidates (lines 288-299): named `button`/`a`/`input`
full records keyed by descending area then ascending vertical position. -/
def lastResortCands (fulls : List FullRec) : List (ℚ × ℚ × FullRec) :=
  fulls.filterMap (fun e =>
    if ["button", "a", "input"].contains (pyLower e.tag) then
      let area := max 0 ((e.bbox.map Box.width).getD 0) * max 0 ((e.bbox.map Box.height).getD 0)
      let y := match e.bbox with
        | some b => b.y
        | none => (10 : ℚ) ^ (9 : Nat)
      let name := (pyOrChainNone [e.name, (e.ax.map AxInfo.name).getD none]).getD ""
      if name = "" then none
      else some (-area, y, e)
    else none)

/-- The last-resort records (lines 300-310): the ten best candidates,
appended without any dedup check. -/
def lastResortList (fulls : List FullRec) : List Elem :=
  ((List.insertionSort lrLe (lastResortCands fulls)).take 10).map (fun t =>
    let e := t.2.2
    { uid := e.uid,
      role := pyOrOpt e.role ((e.ax.map AxInfo.role).getD none),
      tag := some (pyLower e.tag),
      name := strTake140 ((pyOrChainNone [e.name, (e.ax.map AxInfo.name).getD none]).getD ""),
      selector_pref := pyOrOpt e.selector_pref (preferredSelector e.tag e.attrs e.css),
      bbox := e.bbox, frame_path := e.frame_path, shadow_path := e.shadow_path })

/-- The canonical minimal element list of one snapshot (`elements_min`,
lines 191-310): ingest the DOM nodes, align the accessibility tree, run
the two dedup phases, and degrade to the last-resort candidates when the
list would otherwise be empty while full records exist. -/
def buildMinimal (dom : List DomNode) (ax : List AxNode) : List Elem :=
  let domP := dom.map prepNode
  let a2d := buildAx2Dom domP ax
  let fulls := fullElems domP ax a2d
  let m := (minimalPhase12 fulls ax a2d).1
  if m = [] && fulls ≠ [] then lastResortList fulls else m

/-! ## Ranking lemmas -/

theorem pair_mem_candPairs {els : List Elem} {m : MatchSpec} {last : Option Elem}
    {s : Score} {el : Elem} :
    (s, el) ∈ candPairs els m last ↔ el ∈ els ∧ candScore m last el = some s := by
  unfold candPairs
  rw [List.mem_filterMap]
  constructor
  · rintro ⟨a, ha, hfa⟩
    rcases Option.map_eq_some'.mp hfa with ⟨s', hs', heq⟩
    cases heq
    exact ⟨ha, hs'⟩
  · rintro ⟨hm, hs⟩
    exact ⟨el, hm, by rw [hs]; rfl⟩

theorem mem_rankCandidates {els : List Elem} {m : MatchSpec} {last : Option Elem} {el : Elem} :
    el ∈ rankCandidates els m last ↔ ∃ s, el ∈ els ∧ candScore m last el = some s := by
  unfold rankCandidates
  rw [List.mem_map]
  constructor
  · rintro ⟨p, hp, rfl⟩
    have hp' : p ∈ candPairs els m last := (List.mem_insertionSort scoreRel).mp hp
    obtain ⟨s, e⟩ := p
    exact ⟨s, (pair_mem_candPairs.mp hp').1, (pair_mem_candPairs.mp hp').2⟩
  · rintro ⟨s, hm, hs⟩
    exact ⟨(s, el), (List.mem_insertionSort scoreRel).mpr (pair_mem_candPairs.mpr ⟨hm, hs⟩), rfl⟩

theorem candScore_eq_some {m : MatchSpec} {last : Option Elem} {el : Elem} {s : Score}
    (h : candScore m last el = some s) :
    eligible m el = true ∧
      s = ⟨txtScoreFinal m (pyNorm el.name) + roleBonus (pyNorm (el.role.getD "")),
           nsqOf last el⟩ := by
  unfold candScore at h
  split_ifs at h with he
  exact ⟨he, by injection h with h'; exact h'.symm⟩

theorem candScore_of_eligible {m : MatchSpec} {last : Option Elem} {el : Elem}
    (h : eligible m el = true) :
    candScore m last el =
      some ⟨txtScoreFinal m (pyNorm el.name) + roleBonus (pyNorm (el.role.getD "")),
            nsqOf last el⟩ := by
  unfold candScore
  rw [if_pos h]

/-- Eligibility under `exact` pins the normalized name to the normalized
query text. -/
theorem eligible_exact_name {m : MatchSpec} {el : Elem}
    (h : eligible m el = true) (hx : m.exact = true) :
    pyNorm el.name = pyNorm m.text := by
  unfold eligible at h
  simp only [Bool.and_eq_true, decide_eq_true_eq] at h
  have ht := h.2
  unfold txtScoreFinal at ht
  rw [hx] at ht
  by_contra hn
  rw [if_pos (by simpa using Ne.symm hn)] at ht
  exact absurd ht (by norm_num)

/-- Eligibility rules out candidates whose name hits the active blocklist
(the step's entries unioned with `_NEG_DEFAULT`). -/
theorem eligible_not_blocked {m : MatchSpec} {el : Elem}
    (h : eligible m el = true) :
    isBlocked el.name (m.not_contains ++ NEG_DEFAULT) = false := by
  unfold eligible at h
  simp only [Bool.and_eq_true, Bool.not_eq_true', decide_eq_true_eq] at h
  exact h.1.2

/-! ## Concrete fixtures used by witnesses and counterexamples -/

/-- A trivial automation primitive over the unit page state. -/
def primUnit : Prim Unit where
  isVisible := fun _ _ => true
  click := fun p _ => some p
  typeText := fun p _ _ => some p
  waitUrl := fun p _ => some p
  after := id

/-- A primitive that logs every clicked selector. -/
def primLog : Prim (List String) where
  isVisible := fun _ _ => true
  click := fun p s => some (p ++ [s])
  typeText := fun p _ _ => some p
  waitUrl := fun p _ => some p
  after := id

/-- An exactly-named "Continue" button. -/
def wContinueEl : Elem :=
  { uid := "u2", role := some "button", name := "Continue", selector_pref := some "#c" }

/-- A "Continue with Google" button, hit by the default blocklist. -/
def wGoogleEl : Elem :=
  { uid := "u1", role := some "button", name := "Continue with Google",
    selector_pref := some "#g" }

/-! ## Claim C1 -/

/-- C1: resolving `MatchSpec{text: "Continue", exact: true}` with no
explicit `notContains`, on a snapshot that contains an element named
exactly "Continue" (unique up to normalized name) and a "Continue with
Google" element, returns a ranked list headed by the exact element and
excluding the Google variant — the default blocklist is implicitly
unioned into `not_contains`. -/
theorem C1_exact_match_precedence
    (els : List Elem) (last : Option Elem) (e0 eg : Elem)
    (h0m : e0 ∈ els) (h0 : pyNorm e0.name = "continue")
    (huniq : ∀ e ∈ els, pyNorm e.name = "continue" → e = e0)
    (_hgm : eg ∈ els) (hg : pyNorm eg.name = "continue with google") :
    (rankCandidates els { text := "Continue", exact := true } last).head? = some e0 ∧
      eg ∉ rankCandidates els { text := "Continue", exact := true } last := by
  have hnc : pyNorm "Continue" = "continue" := by decide
  have hname0 : e0.name ≠ "" := by
    intro hx; rw [hx] at h0; exact absurd h0 (by decide)
  have hblk : isBlocked e0.name ([] ++ NEG_DEFAULT) = false := by
    simp only [isBlocked, NEG_DEFAULT, List.nil_append, h0]
    decide
  have htxt : txtScoreFinal { text := "Continue", exact := true } (pyNorm e0.name) = 1 := by
    rw [h0]; decide
  have hel0 : eligible { text := "Continue", exact := true } e0 = true := by
    unfold eligible
    simp only [Bool.and_eq_true, Bool.not_eq_true', decide_eq_true_eq]
    refine ⟨⟨⟨?_, hname0⟩, hblk⟩, ?_⟩
    · simp [optTruthy]
    · rw [htxt]; norm_num
  have hcs0 := @candScore_of_eligible _ last _ hel0
  have hmem0 : e0 ∈ rankCandidates els { text := "Continue", exact := true } last :=
    mem_rankCandidates.mpr ⟨_, h0m, hcs0⟩
  have hall : ∀ e ∈ rankCandidates els { text := "Continue", exact := true } last,
      pyNorm e.name = "continue" := by
    intro e he
    rcases mem_rankCandidates.mp he with ⟨s, _, hsc⟩
    have hel := (candScore_eq_some hsc).1
    have hx := eligible_exact_name hel rfl
    rw [hx]; exact hnc
  obtain ⟨hd, tl, hh⟩ := List.exists_cons_of_ne_nil (List.ne_nil_of_mem hmem0)
  have hhd : hd ∈ rankCandidates els { text := "Continue", exact := true } last := by
    rw [hh]; exact List.mem_cons_self _ _
  have hde : hd = e0 := by
    rcases mem_rankCandidates.mp hhd with ⟨s, hmem, _⟩
    exact huniq hd hmem (hall hd hhd)
  constructor
  · rw [hh, hde]; rfl
  · intro hgmem
    have hx := hall eg hgmem
    rw [hg] at hx
    exact absurd hx (by decide)

/-- Witness for C1 at a concrete two-element snapshot. -/
theorem C1_witness :
    (rankCandidates [wContinueEl, wGoogleEl] { text := "Continue", exact := true }
        none).head? = some wContinueEl ∧
      wGoogleEl ∉ rankCandidates [wContinueEl, wGoogleEl]
        { text := "Continue", exact := true } none :=
  C1_exact_match_precedence [wContinueEl, wGoogleEl] none wContinueEl wGoogleEl
    (by decide) (by decide) (by decide) (by decide) (by decide)

/-! ## Claim C2 -/

/-- C2 counterexample: a step with the unknown action name "hover" and no
target makes `run_plan_stepwise` fail the whole plan — target resolution
runs (and raises) before the unknown action would be skipped, so an
unknown-action step is not harmless for every target shape. -/
theorem C2_counterexample :
    runSteps primUnit [] [] [{ action := "hover" }] none () = (false, ()) := by
  decide

/-- C2 (amended): a step whose action is unknown (not empty, `end`,
`type`, `click`, or `wait_url_contains`) and whose target still resolves
to a non-empty selector is skipped without failing the plan and without
touching the page: the run continues exactly as if the step were absent. -/
theorem C2_unknown_action_soft_skip {P : Type} (pr : Prim P) (els : List Elem)
    (vars : List (String × String)) (step : Step) (rest : List Step)
    (last : Option Elem) (p : P) (ch : Option Elem) (s : String)
    (ha : pyStripLower step.action ∉
      (["", "end", "type", "click", "wait_url_contains"] : List String))
    (hr : resolveStepTarget els last step = some (ch, some s)) (hs : s ≠ "") :
    runSteps pr els vars (step :: rest) last p = runSteps pr els vars rest last p := by
  have h1 : ¬ pyStripLower step.action = "" := fun h => ha (by simp [h])
  have h2 : ¬ pyStripLower step.action = "end" := fun h => ha (by simp [h])
  have h3 : ¬ pyStripLower step.action = "type" := fun h => ha (by simp [h])
  have h4 : ¬ pyStripLower step.action = "click" := fun h => ha (by simp [h])
  have h5 : ¬ pyStripLower step.action = "wait_url_contains" := fun h => ha (by simp [h])
  have hexec : execStep pr els vars step last p = .cont last p := by
    unfold execStep
    simp only [hr, if_neg h1, if_neg h2, Option.getD_some, if_neg hs,
      if_neg h3, if_neg h4, if_neg h5]
  simp only [runSteps, hexec]

/-- An unknown-action step carrying an explicit selector target. -/
def wHoverStep : Step := { action := "hover", target := some { selector := some "#x" } }

/-- Witness for the amended C2. -/
theorem C2_witness :
    runSteps primUnit [] [] [wHoverStep] none () = runSteps primUnit [] [] [] none () :=
  C2_unknown_action_soft_skip primUnit [] [] wHoverStep [] none () none "#x"
    (by decide) (by decide) (by decide)

/-! ## Claim C10 -/

/-- C10: executing a plan whose step list is empty (including the
`{"steps": []}` plan the planner substitutes whenever the LLM response
cannot be parsed as a plan) performs no actions and returns overall
success, with the page state untouched. -/
theorem C10_empty_plan_succeeds {P : Type} (pr : Prim P) (els : List Elem)
    (vars : List (String × String)) (steps? : Option (List Step)) (p : P)
    (h : steps?.getD [] = []) :
    runPlanStepwise pr els steps? vars p = (true, p) := by
  unfold runPlanStepwise
  rw [h]
  rfl

/-- Witness for C10 at the `steps = None` plan shape. -/
theorem C10_witness : runPlanStepwise primUnit [] none [] () = (true, ()) :=
  C10_empty_plan_succeeds primUnit [] [] none () rfl

/-! ## Claim C7 -/

/-- C7: for every element list, match object and optional last target, the
candidate resolver returns exactly the eligible candidates, sorted by
descending total score (text score plus role bonus plus proximity bonus),
and candidates of equal total score keep their original snapshot order
(the sort is stable). -/
theorem C7_rank_sorted_stable (els : List Elem) (m : MatchSpec) (last : Option Elem) :
    rankCandidates els m last =
        (List.insertionSort scoreRel (candPairs els m last)).map Prod.snd
    ∧ List.Perm (List.insertionSort scoreRel (candPairs els m last)) (candPairs els m last)
    ∧ (∀ el, el ∈ rankCandidates els m last ↔ ∃ s, el ∈ els ∧ candScore m last el = some s)
    ∧ List.Sorted (fun p q : Score × Elem => totalScore q.1 ≤ totalScore p.1)
        (List.insertionSort scoreRel (candPairs els m last))
    ∧ (∀ x y : Score × Elem, totalScore x.1 = totalScore y.1 →
        [x, y].Sublist (candPairs els m last) →
        [x, y].Sublist (List.insertionSort scoreRel (candPairs els m last))) := by
  refine ⟨rfl, List.perm_insertionSort scoreRel _, fun el => mem_rankCandidates, ?_, ?_⟩
  · exact (List.sorted_insertionSort scoreRel _).imp (fun h => (scoreLe_iff _ _).mp h)
  · intro x y hxy hsub
    exact List.pair_sublist_insertionSort
      (show scoreRel x y from (scoreLe_iff _ _).mpr (le_of_eq hxy.symm)) hsub

/-- A second exactly-named "Continue" button, tied in score with
`wContinueEl`. -/
def wContinueEl2 : Elem :=
  { uid := "u3", role := some "button", name := "Continue", selector_pref := some "#c2" }

/-- Witness for C7: two equal-scored candidates stay in snapshot order
through the sort. -/
theorem C7_witness :
    [((⟨6 / 5, 62500⟩ : Score), wContinueEl), ((⟨6 / 5, 62500⟩ : Score), wContinueEl2)].Sublist
      (List.insertionSort scoreRel (candPairs [wContinueEl, wContinueEl2]
        { text := "Continue" } none)) := by
  have hcp : candPairs [wContinueEl, wContinueEl2] { text := "Continue" } none =
      [((⟨6 / 5, 62500⟩ : Score), wContinueEl), ((⟨6 / 5, 62500⟩ : Score), wContinueEl2)] := by
    norm_num +decide [candPairs, candScore, eligible, optTruthy, isBlocked, NEG_DEFAULT,
      txtScoreFinal, scoreTextN, roleBonus, nsqOf, wContinueEl, wContinueEl2,
      List.filterMap_cons, List.filterMap_nil, Score.mk.injEq]
  exact (C7_rank_sorted_stable [wContinueEl, wContinueEl2] { text := "Continue" } none).2.2.2.2
    _ _ rfl (by rw [hcp])

/-! ## Claim C8 -/

theorem sqDist_nonneg (b c : Box) : 0 ≤ sqDist b c := by
  unfold sqDist
  have h1 := mul_self_nonneg (bcx b - bcx c)
  have h2 := mul_self_nonneg (bcy b - bcy c)
  linarith

/-- C8 counterexample: two equally-named, equally-roled buttons at center
distances 300 and 260 from the last target (both at least 250, where the
proximity bonus has already decayed to zero): the nearer candidate does
not rank first — snapshot order wins the tie instead. -/
theorem C8_counterexample :
    sqDist ⟨259, -1, 2, 2⟩ ⟨-1, -1, 2, 2⟩ < sqDist ⟨299, -1, 2, 2⟩ ⟨-1, -1, 2, 2⟩ ∧
    rankCandidates
        [{ uid := "far", role := some "button", name := "Go", selector_pref := some "#f",
           bbox := some ⟨299, -1, 2, 2⟩ },
         { uid := "near", role := some "button", name := "Go", selector_pref := some "#n",
           bbox := some ⟨259, -1, 2, 2⟩ }]
        { text := "Go" }
        (some { uid := "L", name := "x", bbox := some ⟨-1, -1, 2, 2⟩ }) =
      [{ uid := "far", role := some "button", name := "Go", selector_pref := some "#f",
         bbox := some ⟨299, -1, 2, 2⟩ },
       { uid := "near", role := some "button", name := "Go", selector_pref := some "#n",
         bbox := some ⟨259, -1, 2, 2⟩ }] := by
  constructor
  · norm_num [sqDist, bcx, bcy]
  · norm_num [rankCandidates, candPairs, candScore, eligible, optTruthy, isBlocked,
      NEG_DEFAULT, txtScoreFinal, scoreTextN, roleBonus, nsqOf, sqDist, bcx, bcy,
      List.insertionSort, List.orderedInsert, scoreRel, scoreLe, clampSq, sqrtLeAddBool]

/-- C8 (amended): among two eligible candidates with equal normalized
name and role, both carrying bounding boxes, with a last target present,
the nearer candidate ranks first provided its squared center distance is
under `250² = 62500` (where the bonus is still positive); and the
proximity bonus equals `max(0, 1/4 - distance/1000)`, never negative. -/
theorem C8_proximity_tiebreak
    (m : MatchSpec) (last A B : Elem) (lb ba bb : Box)
    (hlb : last.bbox = some lb) (hba : A.bbox = some ba) (hbb : B.bbox = some bb)
    (hname : pyNorm A.name = pyNorm B.name)
    (hrole : pyNorm (A.role.getD "") = pyNorm (B.role.getD ""))
    (helA : eligible m A = true) (helB : eligible m B = true)
    (hd : sqDist ba lb < sqDist bb lb)
    (hnear : sqDist ba lb < 62500) :
    rankCandidates [A, B] m (some last) = [A, B] ∧
    rankCandidates [B, A] m (some last) = [A, B] ∧
    (∀ q : ℚ, 0 ≤ q →
      ((1 : ℝ) / 4 - Real.sqrt ((clampSq q : ℚ) : ℝ) / 1000 =
          max 0 (1 / 4 - Real.sqrt ((q : ℚ) : ℝ) / 1000) ∧
        (0 : ℝ) ≤ 1 / 4 - Real.sqrt ((clampSq q : ℚ) : ℝ) / 1000)) := by
  have hbase : txtScoreFinal m (pyNorm B.name) + roleBonus (pyNorm (B.role.getD "")) =
      txtScoreFinal m (pyNorm A.name) + roleBonus (pyNorm (A.role.getD "")) := by
    rw [hname, hrole]
  have hnsA : nsqOf (some last) A = sqDist ba lb := by
    simp only [nsqOf, hba, hlb]
  have hnsB : nsqOf (some last) B = sqDist bb lb := by
    simp only [nsqOf, hbb, hlb]
  have hcsA : candScore m (some last) A =
      some ⟨txtScoreFinal m (pyNorm A.name) + roleBonus (pyNorm (A.role.getD "")),
            sqDist ba lb⟩ := by
    rw [candScore_of_eligible helA, hnsA]
  have hcsB : candScore m (some last) B =
      some ⟨txtScoreFinal m (pyNorm A.name) + roleBonus (pyNorm (A.role.getD "")),
            sqDist bb lb⟩ := by
    rw [candScore_of_eligible helB, hnsB, hbase]
  have h0A : (0 : ℚ) ≤ sqDist ba lb := sqDist_nonneg _ _
  have h0B : (0 : ℚ) ≤ sqDist bb lb := sqDist_nonneg _ _
  have hclA : clampSq (sqDist ba lb) = sqDist ba lb :=
    clampSq_of_range h0A (le_of_lt hnear)
  have hclB : clampSq (sqDist bb lb) = min (sqDist bb lb) 62500 := by
    unfold clampSq; rw [max_eq_left h0B]
  have hlt : clampSq (sqDist ba lb) < clampSq (sqDist bb lb) := by
    rw [hclA, hclB]; exact lt_min hd hnear
  have hsqlt : Real.sqrt ((clampSq (sqDist ba lb) : ℚ) : ℝ) <
      Real.sqrt ((clampSq (sqDist bb lb) : ℚ) : ℝ) := by
    apply Real.sqrt_lt_sqrt
    · exact_mod_cast clampSq_nonneg _
    · exact_mod_cast hlt
  have htotal : totalScore ⟨txtScoreFinal m (pyNorm A.name) +
        roleBonus (pyNorm (A.role.getD "")), sqDist bb lb⟩ <
      totalScore ⟨txtScoreFinal m (pyNorm A.name) +
        roleBonus (pyNorm (A.role.getD "")), sqDist ba lb⟩ := by
    unfold totalScore
    simp only
    linarith
  have hle1 : scoreLe
      ⟨txtScoreFinal m (pyNorm A.name) + roleBonus (pyNorm (A.role.getD "")), sqDist bb lb⟩
      ⟨txtScoreFinal m (pyNorm A.name) + roleBonus (pyNorm (A.role.getD "")), sqDist ba lb⟩ =
      true := (scoreLe_iff _ _).mpr (le_of_lt htotal)
  have hle2 : scoreLe
      ⟨txtScoreFinal m (pyNorm A.name) + roleBonus (pyNorm (A.role.getD "")), sqDist ba lb⟩
      ⟨txtScoreFinal m (pyNorm A.name) + roleBonus (pyNorm (A.role.getD "")), sqDist bb lb⟩ =
      false := by
    rw [Bool.eq_false_iff]
    intro h
    exact absurd ((scoreLe_iff _ _).mp h) (not_le.mpr htotal)
  have hcp1 : candPairs [A, B] m (some last) =
      [(⟨txtScoreFinal m (pyNorm A.name) + roleBonus (pyNorm (A.role.getD "")),
         sqDist ba lb⟩, A),
       (⟨txtScoreFinal m (pyNorm A.name) + roleBonus (pyNorm (A.role.getD "")),
         sqDist bb lb⟩, B)] := by
    unfold candPairs
    simp [hcsA, hcsB]
  have hcp2 : candPairs [B, A] m (some last) =
      [(⟨txtScoreFinal m (pyNorm A.name) + roleBonus (pyNorm (A.role.getD "")),
         sqDist bb lb⟩, B),
       (⟨txtScoreFinal m (pyNorm A.name) + roleBonus (pyNorm (A.role.getD "")),
         sqDist ba lb⟩, A)] := by
    unfold candPairs
    simp [hcsA, hcsB]
  refine ⟨?_, ?_, ?_⟩
  · unfold rankCandidates
    rw [hcp1]
    simp [List.insertionSort, List.orderedInsert, scoreRel, hle1]
  · unfold rankCandidates
    rw [hcp2]
    simp [List.insertionSort, List.orderedInsert, scoreRel, hle1, hle2]
  · intro q hq
    have hsq250 : Real.sqrt (((62500 : ℚ) : ℚ) : ℝ) = 250 := by
      rw [show (((62500 : ℚ) : ℚ) : ℝ) = (250 : ℝ) ^ 2 by norm_num,
        Real.sqrt_sq (by norm_num)]
    by_cases hle : q ≤ 62500
    · have hcl : clampSq q = q := clampSq_of_range hq hle
      rw [hcl]
      have hs : Real.sqrt ((q : ℚ) : ℝ) ≤ 250 := by
        calc Real.sqrt ((q : ℚ) : ℝ) ≤ Real.sqrt (((62500 : ℚ) : ℚ) : ℝ) :=
              Real.sqrt_le_sqrt (by exact_mod_cast hle)
          _ = 250 := hsq250
      have hpos : (0 : ℝ) ≤ 1 / 4 - Real.sqrt ((q : ℚ) : ℝ) / 1000 := by linarith
      exact ⟨(max_eq_right hpos).symm, hpos⟩
    · push_neg at hle
      have hcl : clampSq q = 62500 := by
        unfold clampSq; rw [max_eq_left hq, min_eq_right (le_of_lt hle)]
      rw [hcl, hsq250]
      have hs : (250 : ℝ) ≤ Real.sqrt ((q : ℚ) : ℝ) := by
        calc (250 : ℝ) = Real.sqrt (((62500 : ℚ) : ℚ) : ℝ) := hsq250.symm
          _ ≤ Real.sqrt ((q : ℚ) : ℝ) := Real.sqrt_le_sqrt (by exact_mod_cast le_of_lt hle)
      constructor
      · rw [max_eq_left (by linarith)]
        norm_num
      · norm_num

/-- The last target, a near candidate and a mid-distance candidate for
the C8 witness. -/
def wLastEl : Elem := { uid := "L", name := "x", bbox := some ⟨-1, -1, 2, 2⟩ }

/-- Candidate at center distance 100 from `wLastEl`. -/
def wNearEl : Elem :=
  { uid := "near100", role := some "button", name := "Go", selector_pref := some "#n1",
    bbox := some ⟨99, -1, 2, 2⟩ }

/-- Candidate at center distance 260 from `wLastEl`. -/
def wMidEl : Elem :=
  { uid := "mid260", role := some "button", name := "Go", selector_pref := some "#m1",
    bbox := some ⟨259, -1, 2, 2⟩ }

/-- Witness for the amended C8: the in-range nearer candidate ranks first
from either snapshot order. -/
theorem C8_witness :
    rankCandidates [wNearEl, wMidEl] { text := "Go" } (some wLastEl) = [wNearEl, wMidEl] ∧
    rankCandidates [wMidEl, wNearEl] { text := "Go" } (some wLastEl) = [wNearEl, wMidEl] := by
  have h := C8_proximity_tiebreak { text := "Go" } wLastEl wNearEl wMidEl
    ⟨-1, -1, 2, 2⟩ ⟨99, -1, 2, 2⟩ ⟨259, -1, 2, 2⟩ rfl rfl rfl rfl rfl
    (by norm_num +decide [eligible, optTruthy, isBlocked, NEG_DEFAULT, txtScoreFinal,
      scoreTextN, wNearEl])
    (by norm_num +decide [eligible, optTruthy, isBlocked, NEG_DEFAULT, txtScoreFinal,
      scoreTextN, wMidEl])
    (by norm_num [sqDist, bcx, bcy])
    (by norm_num [sqDist, bcx, bcy])
  exact ⟨h.1, h.2.1⟩

/-! ## Claim C6 -/

/-- C6 counterexample: for a `uid`-shaped click step the pre-click check
tests the chosen name only against the step's own (absent) `not_contains`
list — the default blocklist is not unioned in — so the executor clicks
the "Continue with Google" element even though its name is
default-blocklisted and an unblocked "Continue" alternative exists. -/
theorem C6_counterexample :
    runSteps primLog [wGoogleEl, wContinueEl] []
        [{ action := "click", target := some { uid := some "u1" } }] none [] =
      (true, ["#g"]) ∧
    isBlocked wGoogleEl.name NEG_DEFAULT = true ∧
    isBlocked wContinueEl.name NEG_DEFAULT = false := by
  refine ⟨?_, by decide, by decide⟩
  decide

/-- C6 (amended): the pre-click substitution tests the chosen element's
name only against the step's explicit top-level `not_contains` list (an
empty or absent list disables it, regardless of the default blocklist);
when the check fires on a `match`-shaped target, the resolver re-ranks and
exactly the second-ranked candidate is substituted when one exists. -/
theorem C6_blocklist_substitution (els : List Elem) (tgt : Target) (last : Option Elem)
    (el : Elem) (sel : Option String) :
    (tgt.not_contains.getD [] = [] →
      clickAdjust els tgt last (some el) sel = (some el, sel)) ∧
    (∀ m, isBlocked el.name (tgt.not_contains.getD []) = true →
      tgt.mtch = some m →
      2 ≤ (rankCandidates els m last).length →
      ∃ second, (rankCandidates els m last).get? 1 = some second ∧
        clickAdjust els tgt last (some el) sel = (some second, resolveTargetSelector second)) := by
  constructor
  · intro h
    unfold clickAdjust
    rw [h]
    simp [isBlocked]
  · intro m hb hm h2
    unfold clickAdjust
    simp only [hb, hm, Option.isSome_some, if_true]
    rcases hr : rankCandidates els m last with _ | ⟨a, _ | ⟨b, t⟩⟩
    · rw [hr] at h2; simp at h2
    · rw [hr] at h2; simp at h2
    · exact ⟨b, rfl, by simp⟩

/-- A match-shaped click target with an explicit `not_contains` entry. -/
def wSubstTarget : Target :=
  { mtch := some { text := "Continue" }, not_contains := some ["google"] }

/-- Witness for the amended C6: the blocked first choice is replaced by
the second-ranked candidate. -/
theorem C6_witness :
    clickAdjust [wGoogleEl, wContinueEl, wContinueEl2] wSubstTarget none
        (some wGoogleEl) (some "#g") = (some wContinueEl2, some "#c2") := by
  have hrank : rankCandidates [wGoogleEl, wContinueEl, wContinueEl2]
      { text := "Continue" } none = [wContinueEl, wContinueEl2] := by
    norm_num +decide [rankCandidates, candPairs, candScore, eligible, optTruthy, isBlocked,
      NEG_DEFAULT, txtScoreFinal, scoreTextN, roleBonus, nsqOf,
      List.filterMap_cons, List.filterMap_nil, List.insertionSort, List.orderedInsert,
      scoreRel, scoreLe, clampSq, sqrtLeAddBool, wGoogleEl, wContinueEl, wContinueEl2]
  obtain ⟨sec, hsec, hadj⟩ := (C6_blocklist_substitution [wGoogleEl, wContinueEl, wContinueEl2]
      wSubstTarget none wGoogleEl (some "#g")).2
    { text := "Continue" } (by decide) rfl (by rw [hrank]; norm_num)
  rw [hrank] at hsec
  simp only [List.get?] at hsec
  cases hsec
  rw [hadj]
  decide

/-! ## Claim C9 -/

/-- C9: in one round of the recovery loop, a successful first execution
ends the round after one snapshot, one plan and one execution; a failed
first execution is followed by exactly one more snapshot, one more plan
for the same instruction and one more execution, whose result is the
round's result — a third attempt never occurs. -/
theorem C9_recovery_single_retry {S Plan : Type} (o : LoopOracle S Plan)
    (prompt : String) (s0 : S) :
    ∀ m1 p1 r1, o.snapshot s0 = m1 → o.plan prompt m1.1 m1.2 = p1 →
      o.exec m1.1 p1.1 p1.2 = r1 →
      (r1.1 = true →
        runRound (instrument o) prompt (s0, []) =
          (r1.1, (r1.2, [LoopEv.snap, LoopEv.planned prompt, LoopEv.execd]))) ∧
      (r1.1 = false →
        ∀ m2 p2 r2, o.snapshot r1.2 = m2 → o.plan prompt m2.1 m2.2 = p2 →
          o.exec m2.1 p2.1 p2.2 = r2 →
          runRound (instrument o) prompt (s0, []) =
            (r2.1, (r2.2, [LoopEv.snap, LoopEv.planned prompt, LoopEv.execd,
                           LoopEv.snap, LoopEv.planned prompt, LoopEv.execd]))) := by
  rintro ⟨m1l, m1s⟩ ⟨p1l, p1s⟩ ⟨r1b, r1s⟩ hm1 hp1 hr1
  constructor
  · intro hok
    subst hok
    simp [runRound, instrument, hm1, hp1, hr1]
  · rintro hfail ⟨m2l, m2s⟩ ⟨p2l, p2s⟩ ⟨r2b, r2s⟩ hm2 hp2 hr2
    subst hfail
    simp [runRound, instrument, hm1, hp1, hr1, hm2, hp2, hr2]

/-- A loop oracle whose executions always fail, counting calls in its
state. -/
def wOracle : LoopOracle Nat Unit where
  snapshot := fun s => ([], s + 1)
  plan := fun _ _ s => ((), s + 1)
  exec := fun _ _ s => (false, s + 1)

/-- Witness for C9: with a failing first execution, the instrumented trace
shows exactly two snapshot, two plan and two execution calls, and the
round result is the second execution's result. -/
theorem C9_witness :
    runRound (instrument wOracle) "go" (0, []) =
      (false, (6, [LoopEv.snap, LoopEv.planned "go", LoopEv.execd,
                   LoopEv.snap, LoopEv.planned "go", LoopEv.execd])) :=
  ((C9_recovery_single_retry wOracle "go" 0 ([], 1) ((), 2) (false, 3) rfl rfl rfl).2
    rfl ([], 4) ((), 5) (false, 6) rfl rfl rfl)

/-! ## Dedup-fold lemmas for the snapshot phases -/

/-- Invariant of the seen-set dedup: every accumulated key is recorded,
and accumulated keys are pairwise distinct. -/
def dedupInv (st : List Elem × List DedupKey) : Prop :=
  (∀ it ∈ st.1, dedupKey it ∈ st.2) ∧
    st.1.Pairwise (fun a b => dedupKey a ≠ dedupKey b)

theorem dedupInsert_inv {st : List Elem × List DedupKey} {it : Elem}
    (h : dedupInv st) : dedupInv (dedupInsert st it) := by
  unfold dedupInsert
  split_ifs with hk
  · exact h
  · constructor
    · intro x hx
      rcases List.mem_append.mp hx with hx | hx
      · exact List.mem_append.mpr (Or.inl (h.1 x hx))
      · simp only [List.mem_singleton] at hx
        subst hx
        exact List.mem_append.mpr (Or.inr (by simp))
    · rw [List.pairwise_append]
      refine ⟨h.2, List.pairwise_singleton _ _, ?_⟩
      intro a ha b hb
      simp only [List.mem_singleton] at hb
      subst hb
      intro he
      exact hk (he ▸ h.1 a ha)

theorem dedupFoldl_inv {α : Type} (f : α → Option Elem) (l : List α)
    (st : List Elem × List DedupKey) (h : dedupInv st) :
    dedupInv (dedupFoldl f l st) := by
  induction l generalizing st with
  | nil => exact h
  | cons a l ih =>
    unfold dedupFoldl at ih ⊢
    simp only [List.foldl_cons]
    cases hf : f a with
    | none => exact ih st h
    | some it => exact ih _ (dedupInsert_inv h)

theorem mem_dedupInsert {st : List Elem × List DedupKey} {b it : Elem}
    (h : it ∈ (dedupInsert st b).1) : it ∈ st.1 ∨ it = b := by
  unfold dedupInsert at h
  split_ifs at h with hk
  · exact Or.inl h
  · rcases List.mem_append.mp h with h | h
    · exact Or.inl h
    · simp only [List.mem_singleton] at h
      exact Or.inr h

theorem mem_dedupFoldl {α : Type} {f : α → Option Elem} {l : List α}
    {st : List Elem × List DedupKey} {it : Elem}
    (h : it ∈ (dedupFoldl f l st).1) : it ∈ st.1 ∨ ∃ a ∈ l, f a = some it := by
  induction l generalizing st with
  | nil => exact Or.inl h
  | cons a l ih =>
    unfold dedupFoldl at ih h
    simp only [List.foldl_cons] at h
    cases hf : f a with
    | none =>
      rw [hf] at h
      rcases ih h with h | ⟨a', ha', hfa'⟩
      · exact Or.inl h
      · exact Or.inr ⟨a', List.mem_cons_of_mem _ ha', hfa'⟩
    | some b =>
      rw [hf] at h
      rcases ih h with h | ⟨a', ha', hfa'⟩
      · rcases mem_dedupInsert h with h | rfl
        · exact Or.inl h
        · exact Or.inr ⟨a, List.mem_cons_self _ _, hf⟩
      · exact Or.inr ⟨a', List.mem_cons_of_mem _ ha', hfa'⟩

theorem strTake140_ne_empty {s : String} (h : s ≠ "") : strTake140 s ≠ "" := by
  cases s with
  | mk data =>
    cases data with
    | nil => exact absurd rfl h
    | cons c cs =>
      unfold strTake140
      intro hx
      have hdata : (c :: cs).take 140 = [] := congrArg String.data hx
      rw [List.take_eq_nil_iff] at hdata
      rcases hdata with hdata | hdata
      · exact absurd hdata (by norm_num)
      · exact List.cons_ne_nil _ _ hdata

/-! ## Claim C5 -/

/-- C5 counterexample: two hidden (zero-area) buttons sharing the same
`aria-label` leave the dedup phases empty and flow through the last-resort
branch, which appends without the dedup check: the canonical list ends up
with two records sharing the `(role, name, selector_pref)` triple. -/
theorem C5_counterexample :
    ¬ (buildMinimal
        [{ uid := "b1", tag := "button", name := some "Go",
           attrs := [("aria-label", "Go")], bbox := some ⟨0, 10, 0, 0⟩ },
         { uid := "b2", tag := "button", name := some "Go",
           attrs := [("aria-label", "Go")], bbox := some ⟨0, 20, 0, 0⟩ }]
        []).Pairwise (fun a b => dedupKey a ≠ dedupKey b) := by
  have h : buildMinimal
      [{ uid := "b1", tag := "button", name := some "Go",
         attrs := [("aria-label", "Go")], bbox := some ⟨0, 10, 0, 0⟩ },
       { uid := "b2", tag := "button", name := some "Go",
         attrs := [("aria-label", "Go")], bbox := some ⟨0, 20, 0, 0⟩ }]
      [] =
      [{ uid := "b1", role := none, tag := some "button", name := "Go",
         selector_pref := some "[aria-label=\"Go\"]", bbox := some ⟨0, 10, 0, 0⟩ },
       { uid := "b2", role := none, tag := some "button", name := "Go",
         selector_pref := some "[aria-label=\"Go\"]", bbox := some ⟨0, 20, 0, 0⟩ }] := by
    norm_num +decide [buildMinimal, prepNode, strOrNone, buildAx2Dom, fullElems, axInfoFor,
      minimalPhase12, dedupFoldl, dedupInsert, dedupKey, phase1Item, phase2Item,
      isInteractiveRec, visLike, preferredSelector, attrsGet, optTruthy, pyOrOpt,
      pyOrChainNone, lastResortList, lastResortCands, lrLe, List.insertionSort,
      List.orderedInsert, INTERACTIVE_ROLES, INTERACTIVE_TAGS, FALLBACK_AX_ROLES,
      strTake140, pyLower, pyStrip, dropLeadingWs, isPyWs, List.filterMap_cons,
      List.filterMap_nil]
  rw [h]
  decide

/-- C5 (amended): the DOM pass and the AX-only fallback share one seen-set
and never emit two records with the same `(role, name, selector_pref)`
triple; whenever the canonical list is produced by those phases (i.e. the
last-resort branch did not fire because the phases were non-empty), it
satisfies the dedup invariant.  The last-resort branch appends without the
check and can duplicate triples. -/
theorem C5_dedup_invariant (dom : List DomNode) (ax : List AxNode) :
    ((minimalPhase12 (fullElems (dom.map prepNode) ax (buildAx2Dom (dom.map prepNode) ax))
        ax (buildAx2Dom (dom.map prepNode) ax)).1.Pairwise
      (fun a b => dedupKey a ≠ dedupKey b)) ∧
    ((minimalPhase12 (fullElems (dom.map prepNode) ax (buildAx2Dom (dom.map prepNode) ax))
        ax (buildAx2Dom (dom.map prepNode) ax)).1 ≠ [] →
      buildMinimal dom ax =
        (minimalPhase12 (fullElems (dom.map prepNode) ax (buildAx2Dom (dom.map prepNode) ax))
          ax (buildAx2Dom (dom.map prepNode) ax)).1) := by
  constructor
  · exact (dedupFoldl_inv _ _ _ (dedupFoldl_inv _ _ _ ⟨by simp, List.Pairwise.nil⟩)).2
  · intro hne
    unfold buildMinimal
    simp [hne]

/-! ## Claim C4 -/

/-- C4 counterexample: a visible interactive button with no textual name
produces a canonical-list record whose `name` is empty — the DOM pass
performs no empty-name filtering. -/
theorem C4_counterexample :
    (buildMinimal
        [{ uid := "b1", tag := "button", bbox := some ⟨0, 0, 10, 10⟩ }] []).map Elem.name =
      [""] := by
  norm_num +decide [buildMinimal, prepNode, strOrNone, buildAx2Dom, fullElems, axInfoFor,
    minimalPhase12, dedupFoldl, dedupInsert, dedupKey, phase1Item, phase2Item,
    isInteractiveRec, visLike, preferredSelector, attrsGet, optTruthy, pyOrOpt,
    pyOrChainNone, lastResortList, lastResortCands, lrLe, List.insertionSort,
    List.orderedInsert, INTERACTIVE_ROLES, INTERACTIVE_TAGS, FALLBACK_AX_ROLES,
    strTake140, pyLower, pyStrip, dropLeadingWs, isPyWs, List.filterMap_cons,
    List.filterMap_nil]

/-- C4 (amended): records appended by the AX-only fallback and by the
last-resort degraded branch always carry a non-empty name; only the main
DOM pass can emit records with an empty name. -/
theorem C4_fallback_names_nonempty (ax : List AxNode) (a2d : List (Nat × Nat))
    (st : List Elem × List DedupKey) (fulls : List FullRec) :
    (∀ it ∈ (dedupFoldl (phase2Item a2d) ax.enum st).1, it ∈ st.1 ∨ it.name ≠ "") ∧
    (∀ it ∈ lastResortList fulls, it.name ≠ "") := by
  constructor
  · intro it hit
    rcases mem_dedupFoldl hit with h | ⟨a, _, hfa⟩
    · exact Or.inl h
    · right
      simp only [phase2Item] at hfa
      split_ifs at hfa with h1 h2 h3
      · simp only [Bool.or_eq_true, decide_eq_true_eq, not_or] at h2
        injection hfa with hfa
        rw [← hfa]
        exact strTake140_ne_empty h2.2
  · intro it hit
    unfold lastResortList at hit
    rw [List.mem_map] at hit
    obtain ⟨t, ht, rfl⟩ := hit
    have ht' : t ∈ lastResortCands fulls :=
      (List.mem_insertionSort lrLe).mp (List.Sublist.mem ht (List.take_sublist _ _))
    simp only [lastResortCands] at ht'
    rcases List.mem_filterMap.mp ht' with ⟨e, _, hfe⟩
    split_ifs at hfe with htag hname
    injection hfe with hfe
    rw [← hfe]
    exact strTake140_ne_empty hname

/-! ## Claim C3 -/

/-- Specification of the strict-improvement argmax fold: either no entry
improves on the running best and the state is unchanged, or the result is
the first entry attaining the maximal score — entries before it score
strictly less, entries after it score no more. -/
theorem pickBest_spec (sc : DomNode → ℚ) (l : List (Nat × DomNode))
    (b : Option (Nat × DomNode)) (s : ℚ) :
    (pickBest sc l (b, s) = (b, s) ∧ ∀ q ∈ l, sc q.2 ≤ s) ∨
    (∃ l₁ p l₂, l = l₁ ++ p :: l₂ ∧ pickBest sc l (b, s) = (some p, sc p.2) ∧
      s < sc p.2 ∧ (∀ q ∈ l₁, sc q.2 < sc p.2) ∧ (∀ q ∈ l₂, sc q.2 ≤ sc p.2)) := by
  induction l generalizing b s with
  | nil => exact Or.inl ⟨rfl, by simp⟩
  | cons a l ih =>
    by_cases ha : sc a.2 > s
    · have hred : pickBest sc (a :: l) (b, s) = pickBest sc l (some a, sc a.2) := by
        simp [pickBest, ha]
      rcases ih (some a) (sc a.2) with ⟨heq, hall⟩ | ⟨l₁, p, l₂, hsplit, heq, hlt, hbef, haft⟩
      · refine Or.inr ⟨[], a, l, rfl, ?_, ha, by simp, hall⟩
        rw [hred, heq]
      · refine Or.inr ⟨a :: l₁, p, l₂, by rw [hsplit]; rfl, ?_, lt_trans ha hlt, ?_, haft⟩
        · rw [hred, heq]
        · intro q hq
          rcases List.mem_cons.mp hq with rfl | hq
          · exact hlt
          · exact hbef q hq
    · push_neg at ha
      have hred : pickBest sc (a :: l) (b, s) = pickBest sc l (b, s) := by
        simp [pickBest, not_lt.mpr ha]
      rcases ih b s with ⟨heq, hall⟩ | ⟨l₁, p, l₂, hsplit, heq, hlt, hbef, haft⟩
      · refine Or.inl ⟨by rw [hred, heq], ?_⟩
        intro q hq
        rcases List.mem_cons.mp hq with rfl | hq
        · exact ha
        · exact hall q hq
      · refine Or.inr ⟨a :: l₁, p, l₂, by rw [hsplit]; rfl, by rw [hred, heq], hlt, ?_, haft⟩
        intro q hq
        rcases List.mem_cons.mp hq with rfl | hq
        · exact lt_of_le_of_lt ha hlt
        · exact hbef q hq

/-- A successful alignment entry keeps the accessibility index and picks
the first best-scoring same-frame visible candidate, with score at least
one half. -/
theorem alignEntry_eq_some {dom : List DomNode} {p : Nat × AxNode} {x : Nat × Nat}
    (hx : alignEntry dom p = some x) :
    x.1 = p.1 ∧ ∃ l₁ dn l₂,
      sameFrameCands dom p.2 = l₁ ++ (x.2, dn) :: l₂ ∧
      1 / 2 ≤ alignScore p.2 dn ∧
      (∀ q ∈ l₁, alignScore p.2 q.2 < alignScore p.2 dn) ∧
      (∀ q ∈ l₂, alignScore p.2 q.2 ≤ alignScore p.2 dn) := by
  simp only [alignEntry] at hx
  rcases pickBest_spec (alignScore p.2) (sameFrameCands dom p.2) none (-1) with
    ⟨heq, _⟩ | ⟨l₁, pp, l₂, hsplit, heq, _, hbef, haft⟩
  · rw [heq] at hx
    simp at hx
  · rw [heq] at hx
    simp only [] at hx
    split_ifs at hx with hth
    injection hx with hx
    subst hx
    refine ⟨rfl, l₁, pp.2, l₂, ?_, hth, hbef, haft⟩
    simpa using hsplit

/-- The token-set similarity of two identical single-token names hits the
short-circuit value 100. -/
theorem tokenSetRatio_OK : tokenSetRatio "OK" "OK" = 100 := by
  have h1 : uniqueSorted (pyTokens "OK") = ["OK"] := by decide
  unfold tokenSetRatio
  rw [h1]
  norm_num +decide

/-- The alignment score of the duplicated "OK" accessibility node against
the "OK" DOM node. -/
theorem alignScore_OK :
    alignScore { name := some "OK" }
      { uid := "d0", tag := "div", name := some "OK", bbox := some ⟨0, 0, 10, 10⟩ } =
      17 / 20 := by
  unfold alignScore alignTextScore
  rw [show axDisplayName { name := some "OK" } = "OK" from by decide]
  norm_num +decide [tokenSetRatio_OK, alignRoleBonus]

/-- C3 counterexample: two identical accessibility nodes both align to
the single matching DOM node — the alignment map is not injective on the
DOM side. -/
theorem C3_counterexample :
    buildAx2Dom
        [{ uid := "d0", tag := "div", name := some "OK", bbox := some ⟨0, 0, 10, 10⟩ }]
        [{ name := some "OK" }, { name := some "OK" }] = [(0, 0), (1, 0)] ∧
    ¬ ([(0, 0), (1, 0)] : List (Nat × Nat)).Pairwise (fun p q => p.2 ≠ q.2) := by
  refine ⟨?_, by decide⟩
  have hsf : sameFrameCands
      [{ uid := "d0", tag := "div", name := some "OK", bbox := some ⟨0, 0, 10, 10⟩ }]
      { name := some "OK" } =
      [(0, { uid := "d0", tag := "div", name := some "OK", bbox := some ⟨0, 0, 10, 10⟩ })] := by
    norm_num +decide [sameFrameCands, visLike, List.enum, List.enumFrom]
  norm_num +decide [buildAx2Dom, alignEntry, pickBest, hsf, alignScore_OK,
    List.filterMap_cons, List.filterMap_nil, List.enum, List.enumFrom]

/-- C3 (amended): the alignment map is functional over accessibility
indices — its keys are strictly increasing, so each accessibility node
aligns to at most one DOM node — and every aligned DOM index is the first
best-scoring visible same-frame candidate with combined score at least
0.5; but a DOM node may receive alignments from several accessibility
nodes. -/
theorem C3_alignment_functional (dom : List DomNode) (ax : List AxNode) :
    (buildAx2Dom dom ax).Pairwise (fun p q => p.1 < q.1) ∧
    (∀ pr ∈ buildAx2Dom dom ax, ∃ axn l₁ dn l₂,
      ax.get? pr.1 = some axn ∧
      sameFrameCands dom axn = l₁ ++ (pr.2, dn) :: l₂ ∧
      1 / 2 ≤ alignScore axn dn ∧
      (∀ q ∈ l₁, alignScore axn q.2 < alignScore axn dn) ∧
      (∀ q ∈ l₂, alignScore axn q.2 ≤ alignScore axn dn)) := by
  constructor
  · unfold buildAx2Dom
    have henum : ax.enum.Pairwise (fun p q : Nat × AxNode => p.1 < q.1) := by
      have h1 : (ax.enum.map Prod.fst).Pairwise (· < ·) := by
        rw [List.enum_map_fst]
        exact List.pairwise_lt_range _
      exact (List.pairwise_map).mp h1
    refine List.Pairwise.filterMap _ ?_ henum
    intro a a' haa x hx y hy
    rw [Option.mem_def] at hx hy
    rw [(alignEntry_eq_some hx).1, (alignEntry_eq_some hy).1]
    exact haa
  · intro pr hpr
    rcases List.mem_filterMap.mp hpr with ⟨a, hmem, hf⟩
    obtain ⟨hfst, l₁, dn, l₂, hsplit, hth, hbef, haft⟩ := alignEntry_eq_some hf
    refine ⟨a.2, l₁, dn, l₂, ?_, hsplit, hth, hbef, haft⟩
    rw [hfst]
    have := List.mem_enum_iff_getElem?.mp hmem
    rw [List.get?_eq_getElem?]
    exact this

/-- The concrete single-node DOM and duplicated accessibility input of
the C3 scenario. -/
def wAlignDom : List DomNode :=
  [{ uid := "d0", tag := "div", name := some "OK", bbox := some ⟨0, 0, 10, 10⟩ }]

/-- The duplicated accessibility nodes of the C3 scenario. -/
def wAlignAx : List AxNode := [{ name := some "OK" }, { name := some "OK" }]

/-- Witness for the amended C3: at the concrete scenario, the first
aligned pair targets a candidate whose score reaches the threshold. -/
theorem C3_witness :
    1 / 2 ≤ alignScore { name := some "OK" }
      { uid := "d0", tag := "div", name := some "OK", bbox := some ⟨0, 0, 10, 10⟩ } := by
  have hsf0 : sameFrameCands wAlignDom { name := some "OK" } =
      [(0, { uid := "d0", tag := "div", name := some "OK", bbox := some ⟨0, 0, 10, 10⟩ })] := by
    norm_num +decide [sameFrameCands, visLike, wAlignDom, List.enum, List.enumFrom]
  have hmem : ((0, 0) : Nat × Nat) ∈ buildAx2Dom wAlignDom wAlignAx := by
    norm_num +decide [buildAx2Dom, alignEntry, pickBest, hsf0, alignScore_OK,
      List.filterMap_cons, List.filterMap_nil, List.enum, List.enumFrom, wAlignDom, wAlignAx]
  obtain ⟨axn, l₁, dn, l₂, hget, hsplit, hth, _, _⟩ :=
    (C3_alignment_functional wAlignDom wAlignAx).2 (0, 0) hmem
  have haxn : axn = { name := some "OK" } := by
    have : wAlignAx.get? 0 = some { name := some "OK" } := rfl
    rw [this] at hget
    injection hget with h
    exact h.symm
  subst haxn
  rw [hsf0] at hsplit
  cases l₁ with
  | nil =>
    simp only [List.nil_append] at hsplit
    injection hsplit with h1 h2
    injection h1 with h1l h1r
    rw [h1r]
    exact hth
  | cons c cs =>
    exact absurd (congrArg List.length hsplit) (by simp)

/-- An unaligned interactive accessibility node for the C4 witness. -/
def wAxButton : AxNode := { role := some "button", name := some "OK" }

/-- Witness for the amended C4: the fallback record built from
`wAxButton` carries a non-empty name. -/
theorem C4_witness :
    ({ uid := "ax-0", role := some "button", tag := none, name := "OK",
       selector_pref := some "aria://button::OK", bbox := none, frame_path := [],
       shadow_path := none } : Elem) ∈ (([], []) : List Elem × List DedupKey).1 ∨
    ({ uid := "ax-0", role := some "button", tag := none, name := "OK",
       selector_pref := some "aria://button::OK", bbox := none, frame_path := [],
       shadow_path := none } : Elem).name ≠ "" :=
  (C4_fallback_names_nonempty [wAxButton] [] ([], []) []).1 _ (by decide)

/-- A visible named button whose snapshot exercises the dedup phases. -/
def wVisDom : List DomNode :=
  [{ uid := "b1", tag := "button", name := some "Go", attrs := [("aria-label", "Go")],
     bbox := some ⟨0, 0, 10, 10⟩ }]

/-- Witness for the amended C5: with a non-empty dedup-phase output the
canonical list is exactly that output. -/
theorem C5_witness :
    buildMinimal wVisDom [] =
      (minimalPhase12
        (fullElems (wVisDom.map prepNode) [] (buildAx2Dom (wVisDom.map prepNode) []))
        [] (buildAx2Dom (wVisDom.map prepNode) [])).1 :=
  (C5_dedup_invariant wVisDom []).2 (by
    norm_num +decide [minimalPhase12, dedupFoldl, dedupInsert, dedupKey, phase1Item,
      phase2Item, fullElems, buildAx2Dom, alignEntry, prepNode, strOrNone,
      isInteractiveRec, visLike, preferredSelector, attrsGet, optTruthy, pyOrOpt,
      pyOrChainNone, axInfoFor, INTERACTIVE_ROLES, INTERACTIVE_TAGS, strTake140,
      pyLower, pyStrip, dropLeadingWs, isPyWs, wVisDom, List.filterMap_cons,
      List.filterMap_nil, List.enum, List.enumFrom])

end GuiAgent
